import Mathlib

/-!
Verification of the SPC analytics core of this repository against its
natural-language specification.

The repository contains two near-duplicate implementations of the same
pipeline: `src/src/app/spcUtils.ts` (embedded below in namespace `SpcUtils`)
and `src/unnamed/part_000` (namespace `Part000`).  Both are shallowly
embedded over exact rationals `ℚ`; JavaScript's IEEE doubles are idealised
as exact rational arithmetic, except that we track the finite / non-finite
distinction explicitly wherever the source can produce `NaN` or `Infinity`
(the `JSVal` and `EmbVal` types below).  Presentation-only rounding
(`Number(x.toFixed(k))`) at the output boundary is not modelled: every
quantity verified here is taken before that formatting step, exactly as the
source computes it internally.
-/

set_option maxHeartbeats 1000000
set_option maxRecDepth 4000

/-- Result of JavaScript `parseFloat` on a textual field: either `NaN`,
`±Infinity`, or a finite number (idealised as a rational).  Input records
carry their three fields in this already-parsed form. -/
inductive JSVal where
  | nan : JSVal
  | posInf : JSVal
  | negInf : JSVal
  | num : ℚ → JSVal
deriving DecidableEq, Repr

namespace JSVal

/-- JavaScript `isNaN` on a parsed value. -/
def isNaNb : JSVal → Bool
  | .nan => true
  | _ => false

/-- JavaScript `Number.isFinite` on a parsed value. -/
def isFiniteb : JSVal → Bool
  | .num _ => true
  | _ => false

/-- The rational carried by a finite value; non-finite values map to a
junk `0` (theorems about numeric outputs carry finiteness hypotheses on
the inputs, under which this conversion is exact). -/
def q : JSVal → ℚ
  | .num r => r
  | _ => 0

/-- True when the value is not `±Infinity` (it may be `NaN` or finite). -/
def noInfB : JSVal → Bool
  | .posInf => false
  | .negInf => false
  | _ => true

end JSVal

/-- One inspection record (the `InspectionData` input type of both source
files), with its three textual fields already passed through `parseFloat`. -/
structure InspectionData where
  ActualSpecification : JSVal
  FromSpecification : JSVal
  ToSpecification : JSVal
deriving DecidableEq, Repr

/-- Classification of a JavaScript number produced by the capability
engine: an exactly-known rational, a finite value that is not tracked
exactly (a quotient by a nonzero square root), or one of the non-finite
values `+Infinity`, `-Infinity`, `NaN`. -/
inductive EmbVal where
  | exact : ℚ → EmbVal
  | finiteIrr : EmbVal
  | posInf : EmbVal
  | negInf : EmbVal
  | nan : EmbVal
deriving DecidableEq, Repr

namespace EmbVal

/-- JavaScript `isFinite` for the classification. -/
def isFiniteE : EmbVal → Bool
  | .exact _ => true
  | .finiteIrr => true
  | _ => false

/-- JavaScript `Math.min` on two classified values: `NaN` is absorbing,
`-Infinity` dominates, `+Infinity` is the identity, and the minimum of two
finite values is finite. -/
def minE : EmbVal → EmbVal → EmbVal
  | .nan, _ => .nan
  | _, .nan => .nan
  | .negInf, _ => .negInf
  | _, .negInf => .negInf
  | .posInf, b => b
  | a, .posInf => a
  | .exact a, .exact b => .exact (min a b)
  | .finiteIrr, _ => .finiteIrr
  | _, .finiteIrr => .finiteIrr

end EmbVal

/-- JavaScript division `a / b` of finite operands, classified: division by
zero yields `±Infinity` (or `NaN` for `0/0`), otherwise the exact quotient. -/
def jsDivE (a b : ℚ) : EmbVal :=
  if b = 0 then
    if 0 < a then .posInf else if a < 0 then .negInf else .nan
  else .exact (a / b)

/-- JavaScript division of a finite numerator by `c * Math.sqrt v` for a
positive constant `c`: finite (but irrational in general) when `v > 0`,
`±Infinity` / `NaN` when `v = 0`, and `NaN` when `v < 0` (square root of a
negative number).  Used for the `Pp` family, whose divisor is the overall
standard deviation `sqrt(variance)`. -/
def divBySqrtPos (a v : ℚ) : EmbVal :=
  if 0 < v then .finiteIrr
  else if v < 0 then .nan
  else if 0 < a then .posInf else if a < 0 then .negInf else .nan

/-- The epsilon `0.000001` substituted for a zero standard deviation by the
guard in `spcUtils.ts` (lines 158-159). -/
def epsQ : ℚ := 1 / 1000000

/-- Shewhart control-chart constants for one subgroup size. -/
structure CCConsts where
  A2 : ℚ
  D3 : ℚ
  D4 : ℚ
  d2 : ℚ
deriving DecidableEq, Repr

/-- The `controlChartConstants` lookup table, identical in both source
files (`spcUtils.ts` lines 4-12, `part_000` lines 4-12); `none` models a
missing key. -/
def controlChartConstants : ℕ → Option CCConsts
  | 1 => some ⟨2.66, 0, 3.267, 1.128⟩
  | 2 => some ⟨1.88, 0, 3.267, 1.128⟩
  | 3 => some ⟨1.772, 0, 2.574, 1.693⟩
  | 4 => some ⟨0.796, 0, 2.282, 2.059⟩
  | 5 => some ⟨0.691, 0, 2.114, 2.326⟩
  | _ => none

/-- The two fatal errors both variants can throw. -/
inductive SpcError where
  | invalidSampleSize : SpcError
  | insufficientData : SpcError
deriving DecidableEq, Repr

/-- `calculateMean`: arithmetic mean, `null` (here `none`) on empty input.
`spcUtils.ts` lines 58-61 sum then divide; `part_000` lines 14-18 first
filters `Number.isFinite`, which is the identity on our all-finite rational
lists, so one embedding serves both. -/
def calculateMean (data : List ℚ) : Option ℚ :=
  if data = [] then none else some (data.sum / (data.length : ℚ))

/-- The radicand of `calculateStdDev` (`spcUtils.ts` lines 63-70,
`part_000` lines 20-27): the mean of the squared deviations from the given
mean (or, when no mean is given, from the freshly computed mean of the
data). The source's standard deviation is `Math.sqrt` of this variance;
we keep the rational radicand, since `sqrt v = 0 ↔ v = 0` and
`sqrt a = sqrt b ↔ a = b` on nonnegatives, which is all the claims need. -/
def calculateVariance (data : List ℚ) (mean : Option ℚ) : Option ℚ :=
  if data = [] then none
  else
    match mean with
    | some m => calculateMean (data.map (fun v => (v - m) ^ 2))
    | none =>
      match calculateMean data with
      | none => none
      | some m => calculateMean (data.map (fun v => (v - m) ^ 2))

/-- JavaScript `Math.max(...l)` for a nonempty list (both sources only
apply it to nonempty subgroups; the empty case defaults to `0`). -/
def listMax : List ℚ → ℚ
  | [] => 0
  | x :: t => t.foldl max x

/-- JavaScript `Math.min(...l)` for a nonempty list. -/
def listMin : List ℚ → ℚ
  | [] => 0
  | x :: t => t.foldl min x

/-- Fuel-driven worker for `chunkList`; the fuel (initially the list
length) only forces structural termination and never runs out, since each
step consumes at least one element. -/
def chunkListF (size : ℕ) : ℕ → List ℚ → List (List ℚ)
  | _, [] => []
  | 0, _ => []
  | fuel + 1, x :: t =>
    if size = 0 then []
    else (x :: t).take size :: chunkListF size fuel ((x :: t).drop size)

/-- The consecutive chunks of size `size` taken from the front of `xs`
(the `for (i = 0; i < n; i += sampleSize) slice(i, i + sampleSize)` loops
of both sources).  The final chunk may be shorter.  `size = 0` (on which
the source loop would not terminate, but which is unreachable behind the
constants-table check) yields `[]`. -/
def chunkList (size : ℕ) (xs : List ℚ) : List (List ℚ) :=
  chunkListF size xs.length xs

/-- Moving ranges `|x[i] - x[i-1]|` between consecutive measurements
(`spcUtils.ts` lines 40-43, `part_000` lines 134-137; the latter's
`Number.isFinite` filter is the identity on finite inputs). -/
def movingRanges (ms : List ℚ) : List ℚ :=
  (ms.zip ms.tail).map (fun p => |p.2 - p.1|)

/-- `Math.ceil(Math.sqrt n)` for a natural `n` (the histogram bin count),
computed as the least `k` with `n ≤ k * k`; such a `k ≤ n` always exists
(`k = n` works), so the fallback is never taken. -/
def ceilSqrt (n : ℕ) : ℕ :=
  ((List.range (n + 1)).find? (fun k => decide (n ≤ k * k))).getD n

section RunMachinery

variable {α : Type}

/-- Length of the longest all-`p` prefix of a list. -/
def takeWhileLen (p : α → Bool) (xs : List α) : ℕ :=
  (xs.takeWhile p).length

/-- Length of the longest run of consecutive elements satisfying `p`
anywhere in the list (the maximum, over all starting positions, of the
all-`p` run starting there). -/
def maxPRun (p : α → Bool) : List α → ℕ
  | [] => 0
  | x :: t => max (takeWhileLen p (x :: t)) (maxPRun p t)

/-- The largest value ever attained by a counter that starts at `k`, is
incremented on every `p`-element and reset to `0` on every other element,
where only post-increment values are recorded (the
`maxConsecutiveAbove/Below` update discipline of `spcUtils.ts` lines
188-201). -/
def maxAFrom (p : α → Bool) (k : ℕ) : List α → ℕ
  | [] => 0
  | y :: t => if p y then max (k + 1) (maxAFrom p (k + 1) t) else maxAFrom p 0 t

/-- The counter machine of `spcUtils.ts` lines 188-201 for one side of the
mean: state `(k, m)` is the current run counter and recorded maximum. -/
def runMachineA (p : α → Bool) (k m : ℕ) : List α → ℕ
  | [] => m
  | y :: t => if p y then runMachineA p (k + 1) (max m (k + 1)) t else runMachineA p 0 m t

/-- The largest value ever attained by a counter that starts at `k`, is
incremented on `p`-elements and reset to `1` otherwise, with every
post-update value recorded (the `maxTrendUp/Down` update discipline of
`part_000` lines 94-107). -/
def maxTFrom (p : α → Bool) (k : ℕ) : List α → ℕ
  | [] => 0
  | d :: t => if p d then max (k + 1) (maxTFrom p (k + 1) t) else max 1 (maxTFrom p 1 t)

/-- The counter machine of `part_000` lines 94-107 for one trend
direction. -/
def trendMachine (p : α → Bool) (k m : ℕ) : List α → ℕ
  | [] => m
  | d :: t =>
    if p d then trendMachine p (k + 1) (max m (k + 1)) t
    else trendMachine p 1 (max m 1) t

end RunMachinery

/-- Length of the maximal run of the relation `r` between consecutive
elements, starting at the head: a single element is a run of length 1, and
each consecutive pair satisfying `r` extends it by one point. -/
def relRunLen (r : ℚ → ℚ → Bool) : List ℚ → ℕ
  | [] => 0
  | [_] => 1
  | x :: y :: t => if r x y then 1 + relRunLen r (y :: t) else 1

/-- Length (in points) of the longest run of consecutive elements related
pairwise by `r`, anywhere in the list.  With `r a b = (a < b)` this is the
longest strictly-increasing run of consecutive values, an equal or smaller
neighbour ending it — the notion used by the trend-detection sentences of
the specification. -/
def maxRelRun (r : ℚ → ℚ → Bool) : List ℚ → ℕ
  | [] => 0
  | x :: t => max (relRunLen r (x :: t)) (maxRelRun r t)

/-- The consecutive pairs `(x[i-1], x[i])` of a list, in order. -/
def consecPairs (xs : List ℚ) : List (ℚ × ℚ) :=
  xs.zip xs.tail

/-- Population mean of a series, written the way the specification words
it: sum over count. -/
def specMean (xs : List ℚ) : ℚ :=
  xs.sum / (xs.length : ℚ)

/-- Population variance of a series around a given centre, written the way
the specification words it: average squared deviation, dividing by `N`
with no Bessel correction.  The specified `overallStdDev` is its square
root. -/
def specPopVariance (xs : List ℚ) (m : ℚ) : ℚ :=
  (xs.map (fun x => (x - m) ^ 2)).sum / (xs.length : ℚ)

namespace SpcUtils

/-- `calculateSubgroupXBar` (`spcUtils.ts` lines 14-33): for sample size 1
each measurement is its own subgroup mean; otherwise each chunk of
`sampleSize` consecutive measurements (the last possibly shorter, chunks
are never empty) contributes its arithmetic mean. -/
def calculateSubgroupXBar (ms : List ℚ) (n : ℕ) : List ℚ :=
  if n = 1 then ms
  else (chunkList n ms).map (fun g => g.sum / (g.length : ℚ))

/-- `calculateSubgroupRanges` (lines 35-56): moving ranges for sample size
1; otherwise `Math.max(...g) - Math.min(...g)` of each chunk having at
least 2 elements (singleton chunks contribute nothing). -/
def calculateSubgroupRanges (ms : List ℚ) (n : ℕ) : List ℚ :=
  if n = 1 then movingRanges ms
  else ((chunkList n ms).filter (fun g => 1 < g.length)).map (fun g => listMax g - listMin g)

/-- Measurement extraction (lines 122-124): parse every record's
`ActualSpecification` and keep the values that are not `NaN`.  Note that
`Infinity` passes this filter and that `FromSpecification` /
`ToSpecification` are not consulted at all. -/
def extractMeasurements (data : List InspectionData) : List ℚ :=
  ((data.map (·.ActualSpecification)).filter (fun v => !v.isNaNb)).map JSVal.q

/-- State of the single-pass run/trend scanner (lines 181-186). -/
structure RunState where
  consecutiveAboveMean : ℕ
  consecutiveBelowMean : ℕ
  maxConsecutiveAbove : ℕ
  maxConsecutiveBelow : ℕ
  consecutiveIncreasing : ℕ
  consecutiveDecreasing : ℕ
deriving DecidableEq, Repr

/-- One iteration of the loop at lines 188-216: three-way run counting
against the grand mean (a point equal to the mean resets both run
counters), then three-way trend counting against the previous point
(skipped at the first point, where `prev = none`). -/
def runStep (gm : ℚ) (prev : Option ℚ) (s : RunState) (y : ℚ) : RunState :=
  let s1 :=
    if gm < y then
      { s with consecutiveAboveMean := s.consecutiveAboveMean + 1,
               consecutiveBelowMean := 0,
               maxConsecutiveAbove := max s.maxConsecutiveAbove (s.consecutiveAboveMean + 1) }
    else if y < gm then
      { s with consecutiveBelowMean := s.consecutiveBelowMean + 1,
               consecutiveAboveMean := 0,
               maxConsecutiveBelow := max s.maxConsecutiveBelow (s.consecutiveBelowMean + 1) }
    else
      { s with consecutiveAboveMean := 0, consecutiveBelowMean := 0 }
  match prev with
  | none => s1
  | some p =>
    if p < y then
      { s1 with consecutiveIncreasing := s1.consecutiveIncreasing + 1,
                consecutiveDecreasing := 0 }
    else if y < p then
      { s1 with consecutiveDecreasing := s1.consecutiveDecreasing + 1,
                consecutiveIncreasing := 0 }
    else
      { s1 with consecutiveIncreasing := 0, consecutiveDecreasing := 0 }

/-- The loop of lines 188-216, carrying the previous point for the trend
comparisons. -/
def runScanAux (gm : ℚ) (s : RunState) (prev : Option ℚ) : List ℚ → RunState
  | [] => s
  | y :: t => runScanAux gm (runStep gm prev s y) (some y) t

/-- The whole scan of the X-bar series (lines 188-216). -/
def runScan (gm : ℚ) (xs : List ℚ) : RunState :=
  runScanAux gm ⟨0, 0, 0, 0, 0, 0⟩ none xs

/-- The internal quantities of one `calculateAnalysisData` call
(`spcUtils.ts` lines 112-289), taken before the `toFixed` presentation
rounding of the returned `metrics`/`limits` (no claim concerns that
formatting).  String fields carry the qualitative labels exactly as the
source builds them. -/
structure Result where
  measurements : List ℚ
  lslV : JSVal
  uslV : JSVal
  xBarValues : List ℚ
  rangeValues : List ℚ
  xBarMean : ℚ
  avgRange : ℚ
  xBarUcl : ℚ
  xBarLcl : ℚ
  rangeUcl : ℚ
  rangeLcl : ℚ
  withinStdDev : ℚ
  overallVariance : Option ℚ
  cp : EmbVal
  cpu : EmbVal
  cpl : EmbVal
  cpk : EmbVal
  pp : EmbVal
  ppu : EmbVal
  ppl : EmbVal
  ppk : EmbVal
  pointsOutsideXBarLimits : ℕ
  pointsOutsideRangeLimits : ℕ
  eightConsecutivePoints : String
  sixConsecutiveTrend : String
  processStability : String
deriving DecidableEq, Repr

/-- The success path of `calculateAnalysisData` (lines 130-288).
`lsl`/`usl` come from `inspectionData[0]` (the first record of the raw
input, whether or not it is valid).  `stdDev = calculateStdDev(measurements)`
at line 154 passes no mean, so the variance is computed around the
recomputed flat mean of the raw series; the zero guards at lines 158-159
substitute `epsQ` for an exactly-zero estimator.  The `Pp` family divides
by `safeStdDev = sqrt(variance)` when the variance is nonzero (a finite,
irrational-in-general value, classified `finiteIrr`) and by `epsQ` when it
is zero. -/
def buildResult (data : List InspectionData) (n : ℕ) (c : CCConsts) : Result :=
  let ms := extractMeasurements data
  let lslV := ((data.head?).map (·.FromSpecification)).getD .nan
  let uslV := ((data.head?).map (·.ToSpecification)).getD .nan
  let lsl := lslV.q
  let usl := uslV.q
  let xBarValues := calculateSubgroupXBar ms n
  let rangeValues := calculateSubgroupRanges ms n
  let grandMean := (calculateMean xBarValues).getD 0
  let avgRange := (calculateMean rangeValues).getD 0
  let xBarUcl := grandMean + c.A2 * avgRange
  let xBarLcl := grandMean - c.A2 * avgRange
  let rangeUcl := c.D4 * avgRange
  let rangeLcl := c.D3 * avgRange
  let withinStdDev := avgRange / c.d2
  let safeWithin := if withinStdDev = 0 then epsQ else withinStdDev
  let overallVariance := calculateVariance ms none
  let v0 := overallVariance.getD 0
  let cp := jsDivE (usl - lsl) (6 * safeWithin)
  let cpu := jsDivE (usl - grandMean) (3 * safeWithin)
  let cpl := jsDivE (grandMean - lsl) (3 * safeWithin)
  let cpk := cpu.minE cpl
  let pp := if v0 = 0 then jsDivE (usl - lsl) (6 * epsQ) else divBySqrtPos (usl - lsl) v0
  let ppu := if v0 = 0 then jsDivE (usl - grandMean) (3 * epsQ) else divBySqrtPos (usl - grandMean) v0
  let ppl := if v0 = 0 then jsDivE (grandMean - lsl) (3 * epsQ) else divBySqrtPos (grandMean - lsl) v0
  let ppk := ppu.minE ppl
  let outsideXBar := xBarValues.countP (fun y => decide (xBarUcl < y) || decide (y < xBarLcl))
  let outsideRange := rangeValues.countP (fun y => decide (rangeUcl < y) || decide (y < rangeLcl))
  let s := runScan grandMean xBarValues
  let hasEight := 8 ≤ s.maxConsecutiveAbove ∨ 8 ≤ s.maxConsecutiveBelow
  let hasSix := 6 ≤ s.consecutiveIncreasing ∨ 6 ≤ s.consecutiveDecreasing
  { measurements := ms, lslV := lslV, uslV := uslV,
    xBarValues := xBarValues, rangeValues := rangeValues,
    xBarMean := grandMean, avgRange := avgRange,
    xBarUcl := xBarUcl, xBarLcl := xBarLcl,
    rangeUcl := rangeUcl, rangeLcl := rangeLcl,
    withinStdDev := withinStdDev, overallVariance := overallVariance,
    cp := cp, cpu := cpu, cpl := cpl, cpk := cpk,
    pp := pp, ppu := ppu, ppl := ppl, ppk := ppk,
    pointsOutsideXBarLimits := outsideXBar,
    pointsOutsideRangeLimits := outsideRange,
    eightConsecutivePoints := if hasEight then "Yes" else "No",
    sixConsecutiveTrend := if hasSix then "Yes" else "No",
    processStability := if outsideXBar = 0 ∧ ¬hasEight then "Stable" else "Unstable" }

/-- `calculateAnalysisData` (lines 112-128): throws on a sample size
missing from the constants table, then on fewer retained measurements than
the sample size; otherwise returns the full result. -/
def calculateAnalysisData (data : List InspectionData) (sampleSize : ℕ) :
    Except SpcError Result :=
  match controlChartConstants sampleSize with
  | none => .error .invalidSampleSize
  | some c =>
    if (extractMeasurements data).length < sampleSize then .error .insufficientData
    else .ok (buildResult data sampleSize c)

/-- The result of a successful call, `none` when the call throws. -/
def resultOf (data : List InspectionData) (sampleSize : ℕ) : Option Result :=
  match calculateAnalysisData data sampleSize with
  | .ok r => some r
  | .error _ => none

end SpcUtils

namespace Part000

/-- Record validity (`part_000` lines 116-121): all three parsed fields
must be finite (`NaN` and `±Infinity` rejected). -/
def validB (rec : InspectionData) : Bool :=
  rec.ActualSpecification.isFiniteb && rec.FromSpecification.isFiniteb &&
    rec.ToSpecification.isFiniteb

/-- The retained records, in input order (line 116). -/
def validData (data : List InspectionData) : List InspectionData :=
  data.filter validB

/-- The measurement series: `ActualSpecification` of every retained
record (line 123). -/
def p0Measurements (data : List InspectionData) : List ℚ :=
  (validData data).map (fun rec => rec.ActualSpecification.q)

/-- Subgroup means (lines 133-147): the measurements themselves for sample
size 1, otherwise `calculateMean(group) ?? 0` of every nonempty chunk. -/
def p0SubgroupMeans (ms : List ℚ) (n : ℕ) : List ℚ :=
  if n = 1 then ms
  else (chunkList n ms).map (fun g => (calculateMean g).getD 0)

/-- Subgroup ranges (lines 133-147): moving ranges for sample size 1,
otherwise `Math.max(...group) - Math.min(...group)` of every nonempty
chunk — singleton final chunks included, contributing a `0`. -/
def p0SubgroupRanges (ms : List ℚ) (n : ℕ) : List ℚ :=
  if n = 1 then movingRanges ms
  else (chunkList n ms).map (fun g => listMax g - listMin g)

/-- State of the trend loop of `analyzeRuns` (`part_000` lines 94-107). -/
structure TrendState where
  maxTrendUp : ℕ
  maxTrendDown : ℕ
  trendUp : ℕ
  trendDown : ℕ
deriving DecidableEq, Repr

/-- One iteration of the trend loop, on the consecutive pair
`d = (data[i-1], data[i])`: the matching counter is incremented, the other
reset to 1 (both reset on a tie), then both maxima are updated. -/
def trendStep (s : TrendState) (d : ℚ × ℚ) : TrendState :=
  if d.1 < d.2 then
    { maxTrendUp := max s.maxTrendUp (s.trendUp + 1),
      maxTrendDown := max s.maxTrendDown 1,
      trendUp := s.trendUp + 1, trendDown := 1 }
  else if d.2 < d.1 then
    { maxTrendUp := max s.maxTrendUp 1,
      maxTrendDown := max s.maxTrendDown (s.trendDown + 1),
      trendUp := 1, trendDown := s.trendDown + 1 }
  else
    { maxTrendUp := max s.maxTrendUp 1,
      maxTrendDown := max s.maxTrendDown 1,
      trendUp := 1, trendDown := 1 }

/-- State of the run-counting `forEach` of `analyzeRuns` (lines 71-87).
Each point is classified by the single boolean `value > mean`, so a point
exactly at the mean falls on the not-above side. -/
structure P0RunState where
  runsAbove : ℕ
  runsBelow : ℕ
  maxRunLength : ℕ
  currentRun : ℕ
  prevAboveMean : Option Bool
deriving DecidableEq, Repr

/-- One iteration of the `forEach` at lines 74-87. -/
def p0RunStep (m : ℚ) (s : P0RunState) (v : ℚ) : P0RunState :=
  let isAbove := decide (m < v)
  match s.prevAboveMean with
  | none => { s with prevAboveMean := some isAbove, currentRun := 1 }
  | some prev =>
    if isAbove = prev then { s with currentRun := s.currentRun + 1 }
    else
      { runsAbove := if prev then s.runsAbove + 1 else s.runsAbove,
        runsBelow := if prev then s.runsBelow else s.runsBelow + 1,
        maxRunLength := max s.maxRunLength s.currentRun,
        currentRun := 1,
        prevAboveMean := some isAbove }

/-- The closing flush at lines 89-92, committing the final run. -/
def p0RunFlush (s : P0RunState) : P0RunState :=
  match s.prevAboveMean with
  | none => s
  | some prev =>
    { s with runsAbove := if prev then s.runsAbove + 1 else s.runsAbove,
             runsBelow := if prev then s.runsBelow else s.runsBelow + 1,
             maxRunLength := max s.maxRunLength s.currentRun }

/-- The record returned by `analyzeRuns`. -/
structure P0Runs where
  runsAbove : ℕ
  runsBelow : ℕ
  maxRunLength : ℕ
  maxTrendUp : ℕ
  maxTrendDown : ℕ
deriving DecidableEq, Repr

/-- `analyzeRuns` (`part_000` lines 60-110): `null` on an empty series,
otherwise the run statistics against the series mean together with the
trend statistics over consecutive differences. -/
def analyzeRuns (data : List ℚ) : Option P0Runs :=
  if data = [] then none
  else
    match calculateMean data with
    | none => none
    | some mean =>
      let rs := p0RunFlush (data.foldl (p0RunStep mean) ⟨0, 0, 0, 0, none⟩)
      let ts := (consecPairs data).foldl trendStep ⟨0, 0, 1, 1⟩
      some ⟨rs.runsAbove, rs.runsBelow, rs.maxRunLength, ts.maxTrendUp, ts.maxTrendDown⟩

/-- The internal quantities of one `part_000` `calculateAnalysisData` call
(lines 112-212).  This variant applies no rounding and no epsilon guard. -/
structure Result where
  measurements : List ℚ
  lsl : ℚ
  usl : ℚ
  xBarValues : List ℚ
  rangeValues : List ℚ
  xBarMean : ℚ
  avgRange : ℚ
  xBarUcl : ℚ
  xBarLcl : ℚ
  rangeUcl : ℚ
  rangeLcl : ℚ
  withinStdDev : ℚ
  overallVariance : Option ℚ
  cp : EmbVal
  cpu : EmbVal
  cpl : EmbVal
  cpk : EmbVal
  pp : EmbVal
  ppu : EmbVal
  ppl : EmbVal
  ppk : EmbVal
  pointsOutsideXBarLimits : ℕ
  pointsOutsideRangeLimits : ℕ
  maxRunLength : ℕ
  eightConsecutivePoints : String
  sixConsecutiveTrend : String
  processStability : String
deriving DecidableEq, Repr

/-- The success path of `part_000`'s `calculateAnalysisData` (lines
126-211).  `lsl`/`usl` come from `validData[0]` (the first retained
record); `stdDev = calculateStdDev(measurements, grandMean)` at line 151
is centred on the subgrouped grand mean; the capability divisions have no
zero guard; `processStability` at line 208 requires `!runs.maxRunLength`,
i.e. `maxRunLength = 0`. -/
def buildResult (data : List InspectionData) (n : ℕ) (c : CCConsts) : Result :=
  let ms := p0Measurements data
  let lsl := (((validData data).head?).map (fun rec => rec.FromSpecification.q)).getD 0
  let usl := (((validData data).head?).map (fun rec => rec.ToSpecification.q)).getD 0
  let subgroupMeans := p0SubgroupMeans ms n
  let subgroupRanges := p0SubgroupRanges ms n
  let grandMean := (calculateMean subgroupMeans).getD 0
  let avgRange := (calculateMean subgroupRanges).getD 0
  let overallVariance := calculateVariance ms (some grandMean)
  let v0 := overallVariance.getD 0
  let xBarUcl := grandMean + c.A2 * avgRange
  let xBarLcl := grandMean - c.A2 * avgRange
  let rangeUcl := c.D4 * avgRange
  let rangeLcl := c.D3 * avgRange
  let withinStdDev := avgRange / c.d2
  let cp := jsDivE (usl - lsl) (6 * withinStdDev)
  let cpu := jsDivE (usl - grandMean) (3 * withinStdDev)
  let cpl := jsDivE (grandMean - lsl) (3 * withinStdDev)
  let cpk := cpu.minE cpl
  let pp := divBySqrtPos (usl - lsl) v0
  let ppu := divBySqrtPos (usl - grandMean) v0
  let ppl := divBySqrtPos (grandMean - lsl) v0
  let ppk := ppu.minE ppl
  let runs := (analyzeRuns subgroupMeans).getD ⟨0, 0, 0, 0, 0⟩
  let outsideXBar := subgroupMeans.countP (fun y => decide (xBarUcl < y) || decide (y < xBarLcl))
  let outsideRange := subgroupRanges.countP (fun y => decide (rangeUcl < y) || decide (y < rangeLcl))
  { measurements := ms, lsl := lsl, usl := usl,
    xBarValues := subgroupMeans, rangeValues := subgroupRanges,
    xBarMean := grandMean, avgRange := avgRange,
    xBarUcl := xBarUcl, xBarLcl := xBarLcl,
    rangeUcl := rangeUcl, rangeLcl := rangeLcl,
    withinStdDev := withinStdDev, overallVariance := overallVariance,
    cp := cp, cpu := cpu, cpl := cpl, cpk := cpk,
    pp := pp, ppu := ppu, ppl := ppl, ppk := ppk,
    pointsOutsideXBarLimits := outsideXBar,
    pointsOutsideRangeLimits := outsideRange,
    maxRunLength := runs.maxRunLength,
    eightConsecutivePoints := if 8 ≤ runs.maxRunLength then "Yes" else "No",
    sixConsecutiveTrend := if 6 ≤ max runs.maxTrendUp runs.maxTrendDown then "Yes" else "No",
    processStability :=
      if (∀ y ∈ subgroupMeans, xBarLcl ≤ y ∧ y ≤ xBarUcl) ∧ runs.maxRunLength = 0
      then "Stable" else "Unstable" }

/-- `part_000`'s `calculateAnalysisData` (lines 112-124): throws on a
sample size missing from the constants table, then on fewer valid
measurements than the sample size. -/
def calculateAnalysisData (data : List InspectionData) (sampleSize : ℕ) :
    Except SpcError Result :=
  match controlChartConstants sampleSize with
  | none => .error .invalidSampleSize
  | some c =>
    if (p0Measurements data).length < sampleSize then .error .insufficientData
    else .ok (buildResult data sampleSize c)

/-- The result of a successful call, `none` when the call throws. -/
def resultOf (data : List InspectionData) (sampleSize : ℕ) : Option Result :=
  match calculateAnalysisData data sampleSize with
  | .ok r => some r
  | .error _ => none

end Part000

/-- The histogram built by `calculateDistributionData` (`spcUtils.ts`
lines 72-110 and `part_000` lines 29-58 — the binning logic is identical
in the two variants, so one embedding serves both; the presentation-only
`toFixed(4)` on the bin centres is not modelled). -/
structure Distribution where
  binCount : ℕ
  binWidth : ℚ
  binStart : ℚ
  maxV : ℚ
  minV : ℚ
  bins : List ℕ
  mean : ℚ
  target : ℚ
deriving DecidableEq, Repr

/-- The bin index assigned to one value: a value equal to the series
maximum goes to the last bin; otherwise `Math.floor((v - binStart) /
binWidth)`, kept only when inside `[0, binCount)`.  With `binWidth = 0`
the JavaScript quotient is non-finite and never passes the range test,
hence `none`. -/
def binIndexOf (maxV binStart binWidth : ℚ) (binCount : ℕ) (v : ℚ) : Option ℕ :=
  if v = maxV then some (binCount - 1)
  else if binWidth = 0 then none
  else
    let k := ⌊(v - binStart) / binWidth⌋
    if 0 ≤ k ∧ k < (binCount : ℤ) then some k.toNat else none

/-- `calculateDistributionData`: `null` on an empty series; otherwise
`binCount = ceil(sqrt n)` bins of width `(max - min) / binCount` starting
at `min(min, lsl)`, where `bins[i]` is the number of data values the
`forEach` increment loop assigns index `i`. -/
def calculateDistributionData (data : List ℚ) (lsl usl : ℚ) : Option Distribution :=
  if data = [] then none
  else
    let minV := listMin data
    let maxV := listMax data
    let binCount := ceilSqrt data.length
    let binWidth := (maxV - minV) / (binCount : ℚ)
    let binStart := min minV lsl
    let bins := (List.range binCount).map
      (fun i => data.countP (fun v => decide (binIndexOf maxV binStart binWidth binCount v = some i)))
    some ⟨binCount, binWidth, binStart, maxV, minV, bins,
      (calculateMean data).getD 0, (usl + lsl) / 2⟩

/-! Basic facts about the shared numeric helpers. -/

lemma calculateMean_eq_some {l : List ℚ} (h : l ≠ []) :
    calculateMean l = some (l.sum / (l.length : ℚ)) := by
  simp [calculateMean, h]

lemma list_sum_const {l : List ℚ} {q : ℚ} (h : ∀ v ∈ l, v = q) :
    l.sum = (l.length : ℚ) * q := by
  induction l with
  | nil => simp
  | cons x t ih =>
    have hx := h x (by simp)
    have ht : ∀ v ∈ t, v = q := fun v hv => h v (by simp [hv])
    rw [List.sum_cons, ih ht, hx, List.length_cons]
    push_cast
    ring

lemma calculateMean_const {l : List ℚ} {q : ℚ} (hne : l ≠ []) (h : ∀ v ∈ l, v = q) :
    calculateMean l = some q := by
  rw [calculateMean_eq_some hne, list_sum_const h]
  have hl : (l.length : ℚ) ≠ 0 := by
    have : l.length ≠ 0 := fun hz => hne (List.length_eq_zero.mp hz)
    exact_mod_cast this
  rw [mul_comm, mul_div_assoc, div_self hl, mul_one]

lemma calculateMean_getD_zero {l : List ℚ} (h : ∀ v ∈ l, v = 0) :
    (calculateMean l).getD 0 = 0 := by
  rcases eq_or_ne l [] with hl | hl
  · subst hl; rfl
  · rw [calculateMean_const hl h]; rfl

lemma foldl_max_const {q : ℚ} : ∀ {t : List ℚ}, (∀ v ∈ t, v = q) → ∀ {a : ℚ}, a = q →
    t.foldl max a = q := by
  intro t
  induction t with
  | nil => intro _ a ha; simpa using ha
  | cons x s ih =>
    intro h a ha
    have hx : x = q := h x (by simp)
    exact ih (fun v hv => h v (by simp [hv])) (by simp [ha, hx])

lemma foldl_min_const {q : ℚ} : ∀ {t : List ℚ}, (∀ v ∈ t, v = q) → ∀ {a : ℚ}, a = q →
    t.foldl min a = q := by
  intro t
  induction t with
  | nil => intro _ a ha; simpa using ha
  | cons x s ih =>
    intro h a ha
    have hx : x = q := h x (by simp)
    exact ih (fun v hv => h v (by simp [hv])) (by simp [ha, hx])

lemma listMax_const {l : List ℚ} {q : ℚ} (hne : l ≠ []) (h : ∀ v ∈ l, v = q) :
    listMax l = q := by
  rcases l with _ | ⟨x, t⟩
  · exact absurd rfl hne
  · exact foldl_max_const (fun v hv => h v (by simp [hv])) (h x (by simp))

lemma listMin_const {l : List ℚ} {q : ℚ} (hne : l ≠ []) (h : ∀ v ∈ l, v = q) :
    listMin l = q := by
  rcases l with _ | ⟨x, t⟩
  · exact absurd rfl hne
  · exact foldl_min_const (fun v hv => h v (by simp [hv])) (h x (by simp))

lemma foldl_min_le (t : List ℚ) : ∀ a : ℚ, t.foldl min a ≤ a := by
  induction t with
  | nil => intro a; simp
  | cons x s ih =>
    intro a
    calc (x :: s).foldl min a = s.foldl min (min a x) := rfl
    _ ≤ min a x := ih (min a x)
    _ ≤ a := min_le_left a x

lemma le_foldl_max (t : List ℚ) : ∀ a : ℚ, a ≤ t.foldl max a := by
  induction t with
  | nil => intro a; simp
  | cons x s ih =>
    intro a
    calc a ≤ max a x := le_max_left a x
    _ ≤ s.foldl max (max a x) := ih (max a x)

lemma listMin_le_listMax {l : List ℚ} (hne : l ≠ []) : listMin l ≤ listMax l := by
  rcases l with _ | ⟨x, t⟩
  · exact absurd rfl hne
  · calc listMin (x :: t) = t.foldl min x := rfl
    _ ≤ x := foldl_min_le t x
    _ ≤ t.foldl max x := le_foldl_max t x
    _ = listMax (x :: t) := rfl

lemma chunkListF_irrel (size : ℕ) :
    ∀ (f1 : ℕ) (xs : List ℚ), xs.length ≤ f1 → ∀ (f2 : ℕ), xs.length ≤ f2 →
      chunkListF size f1 xs = chunkListF size f2 xs := by
  intro f1
  induction f1 with
  | zero =>
    intro xs h1 f2 h2
    have hx : xs = [] := List.length_eq_zero.mp (Nat.le_zero.mp h1)
    subst hx
    cases f2 <;> rfl
  | succ f ih =>
    intro xs h1 f2 h2
    rcases xs with _ | ⟨x, t⟩
    · cases f2 <;> rfl
    · rcases f2 with _ | g
      · simp at h2
      · show chunkListF size (f + 1) (x :: t) = chunkListF size (g + 1) (x :: t)
        unfold chunkListF
        by_cases hs : size = 0
        · rw [if_pos hs, if_pos hs]
        · rw [if_neg hs, if_neg hs]
          congr 1
          have hs1 : 1 ≤ size := Nat.one_le_iff_ne_zero.mpr hs
          have hd : ((x :: t).drop size).length = (x :: t).length - size :=
            List.length_drop _ _
          apply ih
          · rw [hd]
            simp only [List.length_cons] at h1 ⊢
            omega
          · rw [hd]
            simp only [List.length_cons] at h2 ⊢
            omega

lemma chunkList_unfold {size : ℕ} {xs : List ℚ} (hs : size ≠ 0) (hx : xs ≠ []) :
    chunkList size xs = xs.take size :: chunkList size (xs.drop size) := by
  rcases xs with _ | ⟨x, t⟩
  · exact absurd rfl hx
  · show chunkListF size ((x :: t).length) (x :: t) = _
    simp only [List.length_cons]
    unfold chunkListF
    rw [if_neg hs]
    congr 1
    unfold chunkList
    apply chunkListF_irrel
    · rw [List.length_drop]
      simp only [List.length_cons]
      have hs1 : 1 ≤ size := Nat.one_le_iff_ne_zero.mpr hs
      omega
    · exact le_refl _

lemma chunkList_zero (xs : List ℚ) : chunkList 0 xs = [] := by
  rcases xs with _ | ⟨x, t⟩ <;> rfl

lemma chunkList_nil (size : ℕ) : chunkList size [] = [] := rfl

lemma chunkList_ne_nil {k : ℕ} {xs : List ℚ} (hk : k ≠ 0) (hx : xs ≠ []) :
    chunkList k xs ≠ [] := by
  rw [chunkList_unfold hk hx]
  simp

theorem chunkList_mem {k : ℕ} (xs : List ℚ) (g : List ℚ) (hg : g ∈ chunkList k xs) :
    g ≠ [] ∧ ∀ v ∈ g, v ∈ xs := by
  by_cases hc : k = 0 ∨ xs = []
  · rcases hc with hc | hc
    · subst hc
      rw [chunkList_zero] at hg
      simp at hg
    · subst hc
      rw [chunkList_nil] at hg
      simp at hg
  · push_neg at hc
    rw [chunkList_unfold hc.1 hc.2] at hg
    rcases List.mem_cons.mp hg with hg1 | hg2
    · subst hg1
      constructor
      · intro hemp
        rcases List.take_eq_nil_iff.mp hemp with h0 | h0
        · exact hc.1 h0
        · exact hc.2 h0
      · intro v hv
        exact List.take_subset k xs hv
    · have hrec := chunkList_mem (xs.drop k) g hg2
      exact ⟨hrec.1, fun v hv => List.drop_subset k xs (hrec.2 v hv)⟩
termination_by xs.length
decreasing_by
  push_neg at hc
  simp only [List.length_drop]
  have hx : 0 < xs.length := List.length_pos.mpr hc.2
  have hkpos : 0 < k := Nat.pos_of_ne_zero hc.1
  omega

/-- Structure of the chunking of a series whose length is `1 (mod k)` for
a chunk size `k ≥ 2`: every chunk is full except a final singleton. -/
theorem chunk_structure (k : ℕ) (xs : List ℚ) (hk : 2 ≤ k) (hne : xs ≠ [])
    (hmod : xs.length % k = 1) :
    ∃ cs x, chunkList k xs = cs ++ [[x]] ∧ ∀ g ∈ cs, g.length = k := by
  have hkne : k ≠ 0 := by omega
  rcases Nat.lt_trichotomy xs.length k with hlt | heq | hgt
  · have hxl : xs.length = 1 := by
      have := Nat.mod_eq_of_lt hlt
      omega
    rcases xs with _ | ⟨a, t⟩
    · exact absurd rfl hne
    · have ht : t = [] := by
        have : t.length = 0 := by simpa using hxl
        exact List.length_eq_zero.mp this
      subst ht
      refine ⟨[], a, ?_, by simp⟩
      rw [chunkList_unfold hkne (by simp)]
      have h1 : ([a] : List ℚ).take k = [a] := List.take_of_length_le (by simp; omega)
      have h2 : ([a] : List ℚ).drop k = [] := List.drop_eq_nil_of_le (by simp; omega)
      rw [h1, h2, chunkList_nil]
      simp
  · rw [← heq] at hmod
    rw [Nat.mod_self] at hmod
    omega
  · have hdlen : (xs.drop k).length = xs.length - k := List.length_drop k xs
    have hdne : xs.drop k ≠ [] := by
      intro hnil
      have : (xs.drop k).length = 0 := by rw [hnil]; rfl
      omega
    have hdmod : (xs.drop k).length % k = 1 := by
      rw [hdlen]
      have hc : xs.length - k + k = xs.length := Nat.sub_add_cancel (le_of_lt hgt)
      have := Nat.add_mod_right (xs.length - k) k
      rw [hc] at this
      rw [← this]
      exact hmod
    obtain ⟨cs, x, hcx, hfull⟩ := chunk_structure k (xs.drop k) hk hdne hdmod
    refine ⟨xs.take k :: cs, x, ?_, ?_⟩
    · rw [chunkList_unfold hkne hne, hcx]
      rfl
    · intro g hg
      rcases List.mem_cons.mp hg with hg1 | hg2
      · subst hg1
        rw [List.length_take]
        omega
      · exact hfull g hg2
termination_by xs.length
decreasing_by
  have hx : 0 < xs.length := List.length_pos.mpr hne
  simp only [List.length_drop]
  omega

/-! Correctness of the run/trend counter machines against the
longest-run functions. -/

section RunLemmasSec

variable {α : Type} (p : α → Bool)

lemma runMachineA_eq_max (t : List α) : ∀ k m, runMachineA p k m t = max m (maxAFrom p k t) := by
  induction t with
  | nil => intro k m; simp [runMachineA, maxAFrom]
  | cons y s ih =>
    intro k m
    by_cases hy : p y
    · simp only [runMachineA, maxAFrom, hy, if_true, ih]
      generalize maxAFrom p (k + 1) s = a
      omega
    · simp only [runMachineA, maxAFrom, hy, if_false, ih, Bool.false_eq_true]

lemma takeWhileLen_le_maxPRun (t : List α) : takeWhileLen p t ≤ maxPRun p t := by
  cases t with
  | nil => simp [takeWhileLen, maxPRun]
  | cons x s => exact le_max_left _ _

lemma takeWhileLen_cons (x : α) (s : List α) :
    takeWhileLen p (x :: s) = if p x then 1 + takeWhileLen p s else 0 := by
  by_cases hx : p x <;> simp [takeWhileLen, List.takeWhile_cons, hx]
  omega

lemma maxAFrom_eq (t : List α) : ∀ k, maxAFrom p k t =
    max (if takeWhileLen p t = 0 then 0 else k + takeWhileLen p t) (maxPRun p t) := by
  induction t with
  | nil => intro k; simp [maxAFrom, takeWhileLen, maxPRun]
  | cons y s ih =>
    intro k
    by_cases hy : p y
    · simp only [maxAFrom, hy, if_true, ih, maxPRun, takeWhileLen_cons]
      have hle := takeWhileLen_le_maxPRun p s
      generalize takeWhileLen p s = w at *
      generalize maxPRun p s = b at *
      by_cases hw : w = 0 <;> simp [hw] <;> omega
    · simp only [maxAFrom, hy, if_false, ih, maxPRun, takeWhileLen_cons, Bool.false_eq_true]
      have hle := takeWhileLen_le_maxPRun p s
      generalize takeWhileLen p s = w at *
      generalize maxPRun p s = b at *
      by_cases hw : w = 0 <;> simp [hw] <;> omega

lemma maxAFrom_zero (t : List α) : maxAFrom p 0 t = maxPRun p t := by
  rw [maxAFrom_eq]
  have hle := takeWhileLen_le_maxPRun p t
  generalize takeWhileLen p t = w at *
  generalize maxPRun p t = b at *
  by_cases hw : w = 0 <;> simp [hw] <;> omega

lemma runMachineA_zero (t : List α) : runMachineA p 0 0 t = maxPRun p t := by
  rw [runMachineA_eq_max, maxAFrom_zero]
  omega

lemma trendMachine_eq_max (t : List α) : ∀ k m, trendMachine p k m t = max m (maxTFrom p k t) := by
  induction t with
  | nil => intro k m; simp [trendMachine, maxTFrom]
  | cons d s ih =>
    intro k m
    by_cases hd : p d
    · simp only [trendMachine, maxTFrom, hd, if_true, ih]
      generalize maxTFrom p (k + 1) s = a
      omega
    · simp only [trendMachine, maxTFrom, hd, if_false, ih, Bool.false_eq_true]
      generalize maxTFrom p 1 s = a
      omega

lemma maxTFrom_succ (t : List α) (hne : t ≠ []) : ∀ k, maxTFrom p (k + 1) t = 1 + maxAFrom p k t := by
  induction t with
  | nil => exact absurd rfl hne
  | cons d s ih =>
    intro k
    rcases eq_or_ne s [] with hs | hs
    · subst hs
      by_cases hd : p d
      · simp only [maxTFrom, maxAFrom, hd, if_true]
        omega
      · simp only [maxTFrom, maxAFrom, hd, if_false, Bool.false_eq_true]
        omega
    · by_cases hd : p d
      · simp only [maxTFrom, maxAFrom, hd, if_true, ih hs]
        generalize maxAFrom p (k + 1) s = a
        omega
      · simp only [maxTFrom, maxAFrom, hd, if_false, ih hs, Bool.false_eq_true]
        generalize maxAFrom p 0 s = a
        omega

lemma trendMachine_one (t : List α) (hne : t ≠ []) :
    trendMachine p 1 0 t = 1 + maxPRun p t := by
  rw [trendMachine_eq_max]
  have h1 : maxTFrom p (0 + 1) t = 1 + maxAFrom p 0 t := maxTFrom_succ p t hne 0
  simp only [Nat.zero_add] at h1
  rw [h1, maxAFrom_zero]
  omega

end RunLemmasSec

/-! Bridges between point-based longest runs and their pairwise
reformulation over consecutive pairs. -/

lemma consecPairs_cons_cons (x y : ℚ) (s : List ℚ) :
    consecPairs (x :: y :: s) = (x, y) :: consecPairs (y :: s) := by
  simp [consecPairs]

lemma relRunLen_cons (r : ℚ → ℚ → Bool) :
    ∀ (t : List ℚ) (x : ℚ), relRunLen r (x :: t) =
      1 + takeWhileLen (fun d => r d.1 d.2) (consecPairs (x :: t)) := by
  intro t
  induction t with
  | nil => intro x; simp [relRunLen, consecPairs, takeWhileLen]
  | cons y s ih =>
    intro x
    rw [consecPairs_cons_cons, takeWhileLen_cons]
    by_cases hxy : r x y
    · simp only [relRunLen, hxy, if_true, ih y]
    · simp [relRunLen, hxy]

lemma maxRelRun_cons (r : ℚ → ℚ → Bool) :
    ∀ (t : List ℚ) (x : ℚ), maxRelRun r (x :: t) =
      1 + maxPRun (fun d => r d.1 d.2) (consecPairs (x :: t)) := by
  intro t
  induction t with
  | nil => intro x; simp [maxRelRun, relRunLen, consecPairs, maxPRun]
  | cons y s ih =>
    intro x
    have h1 : maxRelRun r (x :: y :: s) = max (relRunLen r (x :: y :: s)) (maxRelRun r (y :: s)) := rfl
    rw [h1, relRunLen_cons, ih y, consecPairs_cons_cons]
    have h2 : maxPRun (fun d => r d.1 d.2) ((x, y) :: consecPairs (y :: s)) =
        max (takeWhileLen (fun d => r d.1 d.2) ((x, y) :: consecPairs (y :: s)))
          (maxPRun (fun d => r d.1 d.2) (consecPairs (y :: s))) := rfl
    rw [h2]
    generalize takeWhileLen (fun d => r d.1 d.2) ((x, y) :: consecPairs (y :: s)) = a
    generalize maxPRun (fun d => r d.1 d.2) (consecPairs (y :: s)) = b
    omega

/-! Projections of the combined scanners onto the one-sided counter
machines. -/

lemma SpcUtils.runStep_above_max (gm : ℚ) (prev : Option ℚ) (s : SpcUtils.RunState) (y : ℚ) :
    (SpcUtils.runStep gm prev s y).maxConsecutiveAbove =
      if gm < y then max s.maxConsecutiveAbove (s.consecutiveAboveMean + 1)
      else s.maxConsecutiveAbove := by
  rcases prev with _ | pv
  · by_cases h1 : gm < y <;> by_cases h2 : y < gm <;>
      simp [SpcUtils.runStep, h1, h2]
  · by_cases h1 : gm < y <;> by_cases h2 : y < gm <;>
      by_cases h3 : pv < y <;> by_cases h4 : y < pv <;>
        simp [SpcUtils.runStep, h1, h2, h3, h4]

lemma SpcUtils.runStep_above_cnt (gm : ℚ) (prev : Option ℚ) (s : SpcUtils.RunState) (y : ℚ) :
    (SpcUtils.runStep gm prev s y).consecutiveAboveMean =
      if gm < y then s.consecutiveAboveMean + 1 else 0 := by
  rcases prev with _ | pv
  · by_cases h1 : gm < y <;> by_cases h2 : y < gm <;>
      simp [SpcUtils.runStep, h1, h2]
  · by_cases h1 : gm < y <;> by_cases h2 : y < gm <;>
      by_cases h3 : pv < y <;> by_cases h4 : y < pv <;>
        simp [SpcUtils.runStep, h1, h2, h3, h4]

lemma SpcUtils.runStep_below_max (gm : ℚ) (prev : Option ℚ) (s : SpcUtils.RunState) (y : ℚ) :
    (SpcUtils.runStep gm prev s y).maxConsecutiveBelow =
      if y < gm then max s.maxConsecutiveBelow (s.consecutiveBelowMean + 1)
      else s.maxConsecutiveBelow := by
  rcases prev with _ | pv
  · by_cases h1 : gm < y
    · have h2 : ¬ y < gm := not_lt.mpr (le_of_lt h1)
      simp [SpcUtils.runStep, h1, h2]
    · by_cases h2 : y < gm <;> simp [SpcUtils.runStep, h1, h2]
  · by_cases h1 : gm < y
    · have h2 : ¬ y < gm := not_lt.mpr (le_of_lt h1)
      by_cases h3 : pv < y <;> by_cases h4 : y < pv <;>
        simp [SpcUtils.runStep, h1, h2, h3, h4]
    · by_cases h2 : y < gm <;> by_cases h3 : pv < y <;> by_cases h4 : y < pv <;>
        simp [SpcUtils.runStep, h1, h2, h3, h4]

lemma SpcUtils.runStep_below_cnt (gm : ℚ) (prev : Option ℚ) (s : SpcUtils.RunState) (y : ℚ) :
    (SpcUtils.runStep gm prev s y).consecutiveBelowMean =
      if y < gm then s.consecutiveBelowMean + 1 else 0 := by
  rcases prev with _ | pv
  · by_cases h1 : gm < y
    · have h2 : ¬ y < gm := not_lt.mpr (le_of_lt h1)
      simp [SpcUtils.runStep, h1, h2]
    · by_cases h2 : y < gm <;> simp [SpcUtils.runStep, h1, h2]
  · by_cases h1 : gm < y
    · have h2 : ¬ y < gm := not_lt.mpr (le_of_lt h1)
      by_cases h3 : pv < y <;> by_cases h4 : y < pv <;>
        simp [SpcUtils.runStep, h1, h2, h3, h4]
    · by_cases h2 : y < gm <;> by_cases h3 : pv < y <;> by_cases h4 : y < pv <;>
        simp [SpcUtils.runStep, h1, h2, h3, h4]

lemma SpcUtils.runScanAux_above (gm : ℚ) :
    ∀ (xs : List ℚ) (s : SpcUtils.RunState) (prev : Option ℚ),
      (SpcUtils.runScanAux gm s prev xs).maxConsecutiveAbove =
        runMachineA (fun y => decide (gm < y)) s.consecutiveAboveMean s.maxConsecutiveAbove xs := by
  intro xs
  induction xs with
  | nil => intro s prev; rfl
  | cons y t ih =>
    intro s prev
    rw [SpcUtils.runScanAux, ih, SpcUtils.runStep_above_cnt, SpcUtils.runStep_above_max]
    by_cases h1 : gm < y
    · rw [if_pos h1, if_pos h1]
      conv_rhs => rw [runMachineA]
      simp [h1]
    · rw [if_neg h1, if_neg h1]
      conv_rhs => rw [runMachineA]
      simp [h1]

lemma SpcUtils.runScanAux_below (gm : ℚ) :
    ∀ (xs : List ℚ) (s : SpcUtils.RunState) (prev : Option ℚ),
      (SpcUtils.runScanAux gm s prev xs).maxConsecutiveBelow =
        runMachineA (fun y => decide (y < gm)) s.consecutiveBelowMean s.maxConsecutiveBelow xs := by
  intro xs
  induction xs with
  | nil => intro s prev; rfl
  | cons y t ih =>
    intro s prev
    rw [SpcUtils.runScanAux, ih, SpcUtils.runStep_below_cnt, SpcUtils.runStep_below_max]
    by_cases h1 : y < gm
    · rw [if_pos h1, if_pos h1]
      conv_rhs => rw [runMachineA]
      simp [h1]
    · rw [if_neg h1, if_neg h1]
      conv_rhs => rw [runMachineA]
      simp [h1]

lemma SpcUtils.runScan_above (gm : ℚ) (xs : List ℚ) :
    (SpcUtils.runScan gm xs).maxConsecutiveAbove = maxPRun (fun y => decide (gm < y)) xs := by
  rw [SpcUtils.runScan, SpcUtils.runScanAux_above]
  exact runMachineA_zero _ xs

lemma SpcUtils.runScan_below (gm : ℚ) (xs : List ℚ) :
    (SpcUtils.runScan gm xs).maxConsecutiveBelow = maxPRun (fun y => decide (y < gm)) xs := by
  rw [SpcUtils.runScan, SpcUtils.runScanAux_below]
  exact runMachineA_zero _ xs

lemma Part000.foldl_trendStep_up :
    ∀ (ds : List (ℚ × ℚ)) (s : Part000.TrendState),
      (ds.foldl Part000.trendStep s).maxTrendUp =
        trendMachine (fun d => decide (d.1 < d.2)) s.trendUp s.maxTrendUp ds := by
  intro ds
  induction ds with
  | nil => intro s; rfl
  | cons d t ih =>
    intro s
    rw [List.foldl_cons, ih]
    by_cases h1 : d.1 < d.2
    · conv_rhs => rw [trendMachine]
      simp [Part000.trendStep, h1]
    · by_cases h2 : d.2 < d.1
      · conv_rhs => rw [trendMachine]
        simp [Part000.trendStep, h1, h2]
      · conv_rhs => rw [trendMachine]
        simp [Part000.trendStep, h1, h2]

lemma Part000.foldl_trendStep_down :
    ∀ (ds : List (ℚ × ℚ)) (s : Part000.TrendState),
      (ds.foldl Part000.trendStep s).maxTrendDown =
        trendMachine (fun d => decide (d.2 < d.1)) s.trendDown s.maxTrendDown ds := by
  intro ds
  induction ds with
  | nil => intro s; rfl
  | cons d t ih =>
    intro s
    rw [List.foldl_cons, ih]
    by_cases h1 : d.1 < d.2
    · conv_rhs => rw [trendMachine]
      have h2 : ¬ d.2 < d.1 := by exact not_lt.mpr (le_of_lt h1)
      simp [Part000.trendStep, h1, h2]
    · by_cases h2 : d.2 < d.1
      · conv_rhs => rw [trendMachine]
        simp [Part000.trendStep, h1, h2]
      · conv_rhs => rw [trendMachine]
        simp [Part000.trendStep, h1, h2]

/-! Inversion of the two pipelines' success paths, and small helpers. -/

lemma ifString_eq_left_iff (P : Prop) [Decidable P] {a b : String} (hab : a ≠ b) :
    (if P then a else b) = a ↔ P := by
  split
  · rename_i h
    exact iff_of_true rfl h
  · rename_i h
    exact iff_of_false (fun hh => hab hh.symm) h

lemma SpcUtils.suResultOf_inv {data : List InspectionData} {n : ℕ} {r : SpcUtils.Result}
    (h : SpcUtils.resultOf data n = some r) :
    ∃ c, controlChartConstants n = some c ∧
      n ≤ (SpcUtils.extractMeasurements data).length ∧ r = SpcUtils.buildResult data n c := by
  unfold SpcUtils.resultOf SpcUtils.calculateAnalysisData at h
  cases hc : controlChartConstants n with
  | none => rw [hc] at h; simp at h
  | some c =>
    rw [hc] at h
    dsimp only at h
    by_cases hlen : (SpcUtils.extractMeasurements data).length < n
    · rw [if_pos hlen] at h
      simp at h
    · rw [if_neg hlen] at h
      simp at h
      exact ⟨c, rfl, not_lt.mp hlen, h.symm⟩

lemma SpcUtils.suResultOf_mk {data : List InspectionData} {n : ℕ} {c : CCConsts}
    (hc : controlChartConstants n = some c)
    (hlen : n ≤ (SpcUtils.extractMeasurements data).length) :
    SpcUtils.resultOf data n = some (SpcUtils.buildResult data n c) := by
  unfold SpcUtils.resultOf SpcUtils.calculateAnalysisData
  rw [hc]
  dsimp only
  rw [if_neg (not_lt.mpr hlen)]

lemma Part000.p0ResultOf_inv {data : List InspectionData} {n : ℕ} {r : Part000.Result}
    (h : Part000.resultOf data n = some r) :
    ∃ c, controlChartConstants n = some c ∧
      n ≤ (Part000.p0Measurements data).length ∧ r = Part000.buildResult data n c := by
  unfold Part000.resultOf Part000.calculateAnalysisData at h
  cases hc : controlChartConstants n with
  | none => rw [hc] at h; simp at h
  | some c =>
    rw [hc] at h
    dsimp only at h
    by_cases hlen : (Part000.p0Measurements data).length < n
    · rw [if_pos hlen] at h
      simp at h
    · rw [if_neg hlen] at h
      simp at h
      exact ⟨c, rfl, not_lt.mp hlen, h.symm⟩

lemma Part000.p0ResultOf_mk {data : List InspectionData} {n : ℕ} {c : CCConsts}
    (hc : controlChartConstants n = some c)
    (hlen : n ≤ (Part000.p0Measurements data).length) :
    Part000.resultOf data n = some (Part000.buildResult data n c) := by
  unfold Part000.resultOf Part000.calculateAnalysisData
  rw [hc]
  dsimp only
  rw [if_neg (not_lt.mpr hlen)]

/-! Behaviour of the subgroupers and the variance on constant series. -/

lemma SpcUtils.xBar_const {ms : List ℚ} {q : ℚ} (n : ℕ) (h : ∀ v ∈ ms, v = q) :
    ∀ x ∈ SpcUtils.calculateSubgroupXBar ms n, x = q := by
  intro x hx
  unfold SpcUtils.calculateSubgroupXBar at hx
  by_cases hn : n = 1
  · rw [if_pos hn] at hx
    exact h x hx
  · rw [if_neg hn] at hx
    obtain ⟨g, hg, hgx⟩ := List.mem_map.mp hx
    obtain ⟨hgne, hgsub⟩ := chunkList_mem ms g hg
    have hgq : ∀ v ∈ g, v = q := fun v hv => h v (hgsub v hv)
    have hmean := calculateMean_const hgne hgq
    rw [calculateMean_eq_some hgne] at hmean
    rw [← hgx]
    exact Option.some.inj hmean

lemma SpcUtils.xBar_ne_nil {ms : List ℚ} (n : ℕ) (hms : ms ≠ []) (hn : n ≠ 0) :
    SpcUtils.calculateSubgroupXBar ms n ≠ [] := by
  unfold SpcUtils.calculateSubgroupXBar
  by_cases h1 : n = 1
  · rw [if_pos h1]
    exact hms
  · rw [if_neg h1]
    intro hmap
    exact chunkList_ne_nil hn hms (List.map_eq_nil.mp hmap)

lemma movingRanges_const_zero {ms : List ℚ} {q : ℚ} (h : ∀ v ∈ ms, v = q) :
    ∀ x ∈ movingRanges ms, x = 0 := by
  intro x hx
  obtain ⟨d, hd, hdx⟩ := List.mem_map.mp hx
  obtain ⟨hd1, hd2⟩ := List.of_mem_zip hd
  have h1 : d.1 = q := h d.1 hd1
  have h2 : d.2 = q := h d.2 (List.tail_subset ms hd2)
  rw [← hdx, h1, h2]
  simp

lemma SpcUtils.suRanges_const_zero {ms : List ℚ} {q : ℚ} (n : ℕ) (h : ∀ v ∈ ms, v = q) :
    ∀ x ∈ SpcUtils.calculateSubgroupRanges ms n, x = 0 := by
  intro x hx
  unfold SpcUtils.calculateSubgroupRanges at hx
  by_cases hn : n = 1
  · rw [if_pos hn] at hx
    exact movingRanges_const_zero h x hx
  · rw [if_neg hn] at hx
    obtain ⟨g, hg, hgx⟩ := List.mem_map.mp hx
    have hg2 : g ∈ chunkList n ms := List.mem_of_mem_filter hg
    obtain ⟨hgne, hgsub⟩ := chunkList_mem ms g hg2
    have hgq : ∀ v ∈ g, v = q := fun v hv => h v (hgsub v hv)
    rw [← hgx, listMax_const hgne hgq, listMin_const hgne hgq]
    simp

lemma Part000.means_const {ms : List ℚ} {q : ℚ} (n : ℕ) (h : ∀ v ∈ ms, v = q) :
    ∀ x ∈ Part000.p0SubgroupMeans ms n, x = q := by
  intro x hx
  unfold Part000.p0SubgroupMeans at hx
  by_cases hn : n = 1
  · rw [if_pos hn] at hx
    exact h x hx
  · rw [if_neg hn] at hx
    obtain ⟨g, hg, hgx⟩ := List.mem_map.mp hx
    obtain ⟨hgne, hgsub⟩ := chunkList_mem ms g hg
    have hgq : ∀ v ∈ g, v = q := fun v hv => h v (hgsub v hv)
    rw [← hgx, calculateMean_const hgne hgq]
    rfl

lemma Part000.means_ne_nil {ms : List ℚ} (n : ℕ) (hms : ms ≠ []) (hn : n ≠ 0) :
    Part000.p0SubgroupMeans ms n ≠ [] := by
  unfold Part000.p0SubgroupMeans
  by_cases h1 : n = 1
  · rw [if_pos h1]
    exact hms
  · rw [if_neg h1]
    intro hmap
    exact chunkList_ne_nil hn hms (List.map_eq_nil.mp hmap)

lemma Part000.p0Ranges_const_zero {ms : List ℚ} {q : ℚ} (n : ℕ) (h : ∀ v ∈ ms, v = q) :
    ∀ x ∈ Part000.p0SubgroupRanges ms n, x = 0 := by
  intro x hx
  unfold Part000.p0SubgroupRanges at hx
  by_cases hn : n = 1
  · rw [if_pos hn] at hx
    exact movingRanges_const_zero h x hx
  · rw [if_neg hn] at hx
    obtain ⟨g, hg, hgx⟩ := List.mem_map.mp hx
    obtain ⟨hgne, hgsub⟩ := chunkList_mem ms g hg
    have hgq : ∀ v ∈ g, v = q := fun v hv => h v (hgsub v hv)
    rw [← hgx, listMax_const hgne hgq, listMin_const hgne hgq]
    simp

lemma calculateVariance_const_zero {ms : List ℚ} {q : ℚ} (hne : ms ≠ [])
    (h : ∀ v ∈ ms, v = q) :
    calculateVariance ms none = some 0 ∧ calculateVariance ms (some q) = some 0 := by
  have hsq : ∀ w ∈ ms.map (fun v => (v - q) ^ 2), w = 0 := by
    intro w hw
    obtain ⟨v, hv, hvw⟩ := List.mem_map.mp hw
    rw [← hvw, h v hv]
    ring
  have hmapne : ms.map (fun v => (v - q) ^ 2) ≠ [] := by
    intro hmap
    exact hne (List.map_eq_nil.mp hmap)
  have hm0 : calculateMean (ms.map (fun v => (v - q) ^ 2)) = some 0 :=
    calculateMean_const hmapne hsq
  constructor
  · unfold calculateVariance
    rw [if_neg hne, calculateMean_const hne h]
    exact hm0
  · unfold calculateVariance
    rw [if_neg hne]
    exact hm0

lemma SpcUtils.extract_replicate (m : ℕ) (q lo hi : ℚ) :
    SpcUtils.extractMeasurements
        (List.replicate m ⟨JSVal.num q, JSVal.num lo, JSVal.num hi⟩) =
      List.replicate m q := by
  induction m with
  | zero => rfl
  | succ k ih =>
    simp only [List.replicate_succ]
    unfold SpcUtils.extractMeasurements at ih ⊢
    simp only [List.map_cons, List.filter_cons]
    simp [JSVal.isNaNb, JSVal.q, ih]

lemma Part000.measurements_replicate (m : ℕ) (q lo hi : ℚ) :
    Part000.p0Measurements
        (List.replicate m ⟨JSVal.num q, JSVal.num lo, JSVal.num hi⟩) =
      List.replicate m q := by
  induction m with
  | zero => rfl
  | succ k ih =>
    simp only [List.replicate_succ]
    unfold Part000.p0Measurements Part000.validData at ih ⊢
    simp only [List.filter_cons]
    simp [Part000.validB, JSVal.isFiniteb, JSVal.q, ih]

/-! Claim theorems. -/

/-- C3, counterexample.  The claim says the analysis fails with an
insufficient-data error exactly when the number of valid measurements is
below the sample size.  On the empty record list with `sampleSize = 6`
there are `0 < 6` valid measurements, yet both variants fail with the
invalid-sample-size error (the table check runs first), so the claimed
"exactly when" is false as stated. -/
theorem claim_C3_counterexample :
    SpcUtils.calculateAnalysisData [] 6 = .error .invalidSampleSize ∧
    Part000.calculateAnalysisData [] 6 = .error .invalidSampleSize ∧
    (SpcUtils.extractMeasurements []).length < 6 ∧
    (Part000.p0Measurements []).length < 6 ∧
    SpcError.invalidSampleSize ≠ SpcError.insufficientData := by
  refine ⟨rfl, rfl, by decide, by decide, by decide⟩

/-- C3, amended.  In both variants: the call fails with
`invalidSampleSize` exactly when the sample size has no entry in the
constants table, and with `insufficientData` exactly when the sample size
is in the table AND the number of valid measurements is below it (the
table check has priority).  In either failure the `Except` value carries
no partial result. -/
theorem claim_C3_amended :
    ∀ (data : List InspectionData) (n : ℕ),
      (SpcUtils.calculateAnalysisData data n = .error .invalidSampleSize ↔
        controlChartConstants n = none) ∧
      (SpcUtils.calculateAnalysisData data n = .error .insufficientData ↔
        (∃ c, controlChartConstants n = some c) ∧
          (SpcUtils.extractMeasurements data).length < n) ∧
      (Part000.calculateAnalysisData data n = .error .invalidSampleSize ↔
        controlChartConstants n = none) ∧
      (Part000.calculateAnalysisData data n = .error .insufficientData ↔
        (∃ c, controlChartConstants n = some c) ∧
          (Part000.p0Measurements data).length < n) := by
  intro data n
  refine ⟨?_, ?_, ?_, ?_⟩
  · unfold SpcUtils.calculateAnalysisData
    cases hc : controlChartConstants n with
    | none => simp
    | some c =>
      dsimp only
      by_cases hlen : (SpcUtils.extractMeasurements data).length < n <;> simp [hlen]
  · unfold SpcUtils.calculateAnalysisData
    cases hc : controlChartConstants n with
    | none => simp
    | some c =>
      dsimp only
      by_cases hlen : (SpcUtils.extractMeasurements data).length < n <;> simp [hlen]
  · unfold Part000.calculateAnalysisData
    cases hc : controlChartConstants n with
    | none => simp
    | some c =>
      dsimp only
      by_cases hlen : (Part000.p0Measurements data).length < n <;> simp [hlen]
  · unfold Part000.calculateAnalysisData
    cases hc : controlChartConstants n with
    | none => simp
    | some c =>
      dsimp only
      by_cases hlen : (Part000.p0Measurements data).length < n <;> simp [hlen]

section ConcreteEvaluation

attribute [local semireducible] Rat.add Rat.mul Rat.sub Rat.inv Rat.ofScientific

/-- C7.  The claim states `processStability` is "Stable" iff no X-bar
point is outside the limits and no 8-point run was detected.  `spcUtils.ts`
implements exactly that, but `part_000` line 208 requires
`!runs.maxRunLength`, i.e. a *zero* maximum run length — impossible for a
nonempty X-bar series (any point starts a run of length 1) — so it reports
"Unstable" even on this perfectly stable input: five identical
measurements at sample size 5, with zero out-of-limit points and maximum
run length 1 < 8. -/
theorem claim_C7_code_bug :
    (Part000.resultOf (List.replicate 5 ⟨JSVal.num 10, JSVal.num 5, JSVal.num 15⟩) 5).map
        (fun r => (r.processStability, r.pointsOutsideXBarLimits, r.maxRunLength)) =
      some ("Unstable", 0, 1) ∧
    (SpcUtils.resultOf (List.replicate 5 ⟨JSVal.num 10, JSVal.num 5, JSVal.num 15⟩) 5).map
        (fun r => (r.processStability, r.pointsOutsideXBarLimits, r.eightConsecutivePoints)) =
      some ("Stable", 0, "No") := by
  constructor
  · decide
  · decide

/-- Any sample size with a table entry is at least 1. -/
lemma controlChartConstants_pos {n : ℕ} {c : CCConsts}
    (hc : controlChartConstants n = some c) : 1 ≤ n := by
  match n with
  | 0 => simp [controlChartConstants] at hc
  | k + 1 => omega

/-- Division by an exactly-zero divisor is never finite (it is
`+Infinity`, `-Infinity` or `NaN` depending on the numerator's sign). -/
lemma jsDivE_zero_not_finite (a : ℚ) : (jsDivE a 0).isFiniteE = false := by
  unfold jsDivE
  rw [if_pos rfl]
  by_cases h1 : 0 < a
  · simp [h1, EmbVal.isFiniteE]
  · by_cases h2 : a < 0 <;> simp [h1, h2, EmbVal.isFiniteE]

/-- Division by `c * sqrt 0` is never finite. -/
lemma divBySqrtPos_zero_not_finite (a : ℚ) : (divBySqrtPos a 0).isFiniteE = false := by
  unfold divBySqrtPos
  rw [if_neg (lt_irrefl 0), if_neg (lt_irrefl 0)]
  by_cases h1 : 0 < a
  · simp [h1, EmbVal.isFiniteE]
  · by_cases h2 : a < 0 <;> simp [h1, h2, EmbVal.isFiniteE]

/-- `Math.min` of two non-finite values is non-finite. -/
lemma minE_not_finite {a b : EmbVal} (ha : a.isFiniteE = false)
    (hb : b.isFiniteE = false) : (a.minE b).isFiniteE = false := by
  cases a <;> cases b <;> simp_all [EmbVal.isFiniteE, EmbVal.minE]

/-- `Math.min` of two exactly-known values. -/
lemma minE_exact (a b : ℚ) : (EmbVal.exact a).minE (EmbVal.exact b) = .exact (min a b) := rfl

/-- The head of a nonempty replicate. -/
lemma replicate_head {β : Type} (m : ℕ) (hm : 1 ≤ m) (a : β) :
    (List.replicate m a).head? = some a := by
  match m with
  | k + 1 => rw [List.replicate_succ]; rfl

/-- All retained records of an all-valid replicate. -/
lemma Part000.validData_replicate (m : ℕ) (q lo hi : ℚ) :
    Part000.validData (List.replicate m ⟨JSVal.num q, JSVal.num lo, JSVal.num hi⟩) =
      List.replicate m ⟨JSVal.num q, JSVal.num lo, JSVal.num hi⟩ := by
  apply List.filter_eq_self.mpr
  intro a ha
  rw [List.eq_of_mem_replicate ha]
  rfl


/-- C1, counterexample.  The claim asserts the capability engine
substitutes an epsilon so that on all-identical measurements every index
is a large finite number, never `Infinity` or `NaN`.  The `part_000`
variant has no such guard: on five identical measurements (value 10,
specification limits 5 and 15, sample size 5) its `withinStdDev` and its
overall standard deviation are exactly 0 and all eight indices are
non-finite (`+Infinity` here). -/
theorem claim_C1_counterexample :
    (Part000.resultOf (List.replicate 5 ⟨JSVal.num 10, JSVal.num 5, JSVal.num 15⟩) 5).map
        (fun r => [r.cp.isFiniteE, r.cpu.isFiniteE, r.cpl.isFiniteE, r.cpk.isFiniteE,
                   r.pp.isFiniteE, r.ppu.isFiniteE, r.ppl.isFiniteE, r.ppk.isFiniteE]) =
      some [false, false, false, false, false, false, false, false] := by
  decide

/-- C1, amended.  For every all-identical measurement series (constant
value `q`, finite limits `lo`/`hi`, valid sample size, length at least the
sample size): the `spcUtils.ts` variant substitutes epsilon `1e-6` for its
exactly-zero estimators, so all eight indices are the stated finite
rationals (degrading to very large values for `hi > lo`); the `part_000`
variant divides by the raw zero estimators and every one of its eight
indices is non-finite. -/
theorem claim_C1_amended (q lo hi : ℚ) (m n : ℕ) (c : CCConsts)
    (hc : controlChartConstants n = some c) (hm : n ≤ m) :
    (SpcUtils.resultOf (List.replicate m ⟨JSVal.num q, JSVal.num lo, JSVal.num hi⟩) n).map
        (fun r => [r.cp, r.cpu, r.cpl, r.cpk, r.pp, r.ppu, r.ppl, r.ppk]) =
      some [.exact ((hi - lo) / (6 * epsQ)), .exact ((hi - q) / (3 * epsQ)),
            .exact ((q - lo) / (3 * epsQ)),
            .exact (min ((hi - q) / (3 * epsQ)) ((q - lo) / (3 * epsQ))),
            .exact ((hi - lo) / (6 * epsQ)), .exact ((hi - q) / (3 * epsQ)),
            .exact ((q - lo) / (3 * epsQ)),
            .exact (min ((hi - q) / (3 * epsQ)) ((q - lo) / (3 * epsQ)))] ∧
    (Part000.resultOf (List.replicate m ⟨JSVal.num q, JSVal.num lo, JSVal.num hi⟩) n).map
        (fun r => [r.cp.isFiniteE, r.cpu.isFiniteE, r.cpl.isFiniteE, r.cpk.isFiniteE,
                   r.pp.isFiniteE, r.ppu.isFiniteE, r.ppl.isFiniteE, r.ppk.isFiniteE]) =
      some [false, false, false, false, false, false, false, false] := by
  have hn1 : 1 ≤ n := controlChartConstants_pos hc
  have hm1 : 1 ≤ m := le_trans hn1 hm
  have hne : (List.replicate m q) ≠ [] := by
    intro hmz
    have : m = 0 := by simpa using congrArg List.length hmz
    omega
  have hqmem : ∀ v ∈ List.replicate m q, v = q := fun v hv => List.eq_of_mem_replicate hv
  have hhead : (List.replicate m
      (⟨JSVal.num q, JSVal.num lo, JSVal.num hi⟩ : InspectionData)).head? =
      some ⟨JSVal.num q, JSVal.num lo, JSVal.num hi⟩ := replicate_head m hm1 _
  constructor
  · have hms : SpcUtils.extractMeasurements
        (List.replicate m ⟨JSVal.num q, JSVal.num lo, JSVal.num hi⟩) = List.replicate m q :=
      SpcUtils.extract_replicate m q lo hi
    have hlen : n ≤ (SpcUtils.extractMeasurements
        (List.replicate m ⟨JSVal.num q, JSVal.num lo, JSVal.num hi⟩)).length := by
      rw [hms, List.length_replicate]
      exact hm
    rw [SpcUtils.suResultOf_mk hc hlen, Option.map_some']
    congr 1
    have hxq : ∀ x ∈ SpcUtils.calculateSubgroupXBar (List.replicate m q) n, x = q :=
      SpcUtils.xBar_const n hqmem
    have hxne : SpcUtils.calculateSubgroupXBar (List.replicate m q) n ≠ [] :=
      SpcUtils.xBar_ne_nil n hne (by omega)
    have hgm : (calculateMean (SpcUtils.calculateSubgroupXBar (List.replicate m q) n)).getD 0
        = q := by rw [calculateMean_const hxne hxq]; rfl
    have hr0 : (calculateMean (SpcUtils.calculateSubgroupRanges (List.replicate m q) n)).getD 0
        = 0 := calculateMean_getD_zero (SpcUtils.suRanges_const_zero n hqmem)
    have hvar : calculateVariance (List.replicate m q) none = some 0 :=
      (calculateVariance_const_zero hne hqmem).1
    simp only [SpcUtils.buildResult, hms, hgm, hr0, hvar, hhead, Option.map_some',
      Option.getD_some, zero_div, if_pos rfl, JSVal.q]
    have h6 : ¬((6 : ℚ) * epsQ = 0) := by norm_num [epsQ]
    have h3 : ¬((3 : ℚ) * epsQ = 0) := by norm_num [epsQ]
    simp only [if_true, jsDivE, if_neg h6, if_neg h3, minE_exact]
  · have hms : Part000.p0Measurements
        (List.replicate m ⟨JSVal.num q, JSVal.num lo, JSVal.num hi⟩) = List.replicate m q :=
      Part000.measurements_replicate m q lo hi
    have hlen : n ≤ (Part000.p0Measurements
        (List.replicate m ⟨JSVal.num q, JSVal.num lo, JSVal.num hi⟩)).length := by
      rw [hms, List.length_replicate]
      exact hm
    rw [Part000.p0ResultOf_mk hc hlen, Option.map_some']
    congr 1
    have hxq : ∀ x ∈ Part000.p0SubgroupMeans (List.replicate m q) n, x = q :=
      Part000.means_const n hqmem
    have hxne : Part000.p0SubgroupMeans (List.replicate m q) n ≠ [] :=
      Part000.means_ne_nil n hne (by omega)
    have hgm : (calculateMean (Part000.p0SubgroupMeans (List.replicate m q) n)).getD 0
        = q := by rw [calculateMean_const hxne hxq]; rfl
    have hr0 : (calculateMean (Part000.p0SubgroupRanges (List.replicate m q) n)).getD 0
        = 0 := calculateMean_getD_zero (Part000.p0Ranges_const_zero n hqmem)
    have hvar : calculateVariance (List.replicate m q) (some q) = some 0 :=
      (calculateVariance_const_zero hne hqmem).2
    have hvd : Part000.validData
        (List.replicate m ⟨JSVal.num q, JSVal.num lo, JSVal.num hi⟩) =
        List.replicate m ⟨JSVal.num q, JSVal.num lo, JSVal.num hi⟩ :=
      Part000.validData_replicate m q lo hi
    simp only [Part000.buildResult, hms, hvd, hhead, hgm, hr0, hvar, Option.map_some',
      Option.getD_some, zero_div, mul_zero, JSVal.q]
    simp [jsDivE_zero_not_finite, divBySqrtPos_zero_not_finite, minE_not_finite]

/-- C1, witness: the amended theorem at the concrete all-identical input
of the counterexample (value 10, limits 5 and 15, five records, sample
size 5). -/
theorem claim_C1_witness :
    (SpcUtils.resultOf (List.replicate 5 ⟨JSVal.num 10, JSVal.num 5, JSVal.num 15⟩) 5).map
        (fun r => [r.cp, r.cpu, r.cpl, r.cpk, r.pp, r.ppu, r.ppl, r.ppk]) =
      some [.exact ((15 - 5) / (6 * epsQ)), .exact ((15 - 10) / (3 * epsQ)),
            .exact ((10 - 5) / (3 * epsQ)),
            .exact (min ((15 - 10) / (3 * epsQ)) ((10 - 5) / (3 * epsQ))),
            .exact ((15 - 5) / (6 * epsQ)), .exact ((15 - 10) / (3 * epsQ)),
            .exact ((10 - 5) / (3 * epsQ)),
            .exact (min ((15 - 10) / (3 * epsQ)) ((10 - 5) / (3 * epsQ)))] ∧
    (Part000.resultOf (List.replicate 5 ⟨JSVal.num 10, JSVal.num 5, JSVal.num 15⟩) 5).map
        (fun r => [r.cp.isFiniteE, r.cpu.isFiniteE, r.cpl.isFiniteE, r.cpk.isFiniteE,
                   r.pp.isFiniteE, r.ppu.isFiniteE, r.ppl.isFiniteE, r.ppk.isFiniteE]) =
      some [false, false, false, false, false, false, false, false] :=
  claim_C1_amended 10 5 15 5 5 ⟨0.691, 0, 2.114, 2.326⟩ (by decide) (by decide)

/-- The first element of a filtered list is the first element satisfying
the predicate. -/
lemma filter_head_eq_find {β : Type} (p : β → Bool) (l : List β) :
    (l.filter p).head? = l.find? p := by
  induction l with
  | nil => rfl
  | cons a t ih =>
    by_cases hp : p a <;> simp [List.filter_cons, List.find?_cons, hp, ih]

/-- C2, counterexample.  The claim says a record is retained only when all
three fields parse finite, and `lsl`/`usl` come from the first *retained*
record.  Input: record 1 has `FromSpecification = NaN` (invalid), record 2
is fully valid.  `spcUtils.ts` nevertheless keeps record 1's measurement
(it only tests `ActualSpecification` against `NaN`) and takes `lsl` from
record 1 — the raw first record — yielding `NaN`; `part_000` behaves as
claimed (measurements `[5]`, `lsl = 1`). -/
theorem claim_C2_counterexample :
    Part000.validB ⟨JSVal.num 4, JSVal.nan, JSVal.num 9⟩ = false ∧
    (SpcUtils.resultOf
        [⟨JSVal.num 4, JSVal.nan, JSVal.num 9⟩, ⟨JSVal.num 5, JSVal.num 1, JSVal.num 9⟩] 1).map
        (fun r => (r.measurements, r.lslV)) = some ([4, 5], JSVal.nan) ∧
    (Part000.resultOf
        [⟨JSVal.num 4, JSVal.nan, JSVal.num 9⟩, ⟨JSVal.num 5, JSVal.num 1, JSVal.num 9⟩] 1).map
        (fun r => (r.measurements, r.lsl)) = some ([5], 1) := by
  refine ⟨rfl, by decide, by decide⟩

/-- C2, amended.  The `part_000` variant satisfies the claim: its `lsl` /
`usl` come from the first record satisfying the all-three-fields-finite
validity test (`find? validB`), its measurement count equals the number of
valid records, and every measurement comes from a valid record.  The
`spcUtils.ts` variant instead retains a measurement whenever its
`ActualSpecification` alone is not `NaN` (the other two fields are never
checked) and takes `lsl` from the raw first input record, valid or not. -/
theorem claim_C2_amended (data : List InspectionData) (n : ℕ) :
    ((Part000.resultOf data n).map (fun r => r.lsl) =
      (Part000.resultOf data n).map (fun _ =>
        ((data.find? Part000.validB).map (fun rec => rec.FromSpecification.q)).getD 0)) ∧
    ((Part000.resultOf data n).map (fun r => r.usl) =
      (Part000.resultOf data n).map (fun _ =>
        ((data.find? Part000.validB).map (fun rec => rec.ToSpecification.q)).getD 0)) ∧
    (∀ ms, (Part000.resultOf data n).map (fun r => r.measurements) = some ms →
      ms.length = data.countP Part000.validB ∧
      ∀ v ∈ ms, ∃ rec ∈ data, Part000.validB rec = true ∧ rec.ActualSpecification.q = v) ∧
    (∀ ms, (SpcUtils.resultOf data n).map (fun r => r.measurements) = some ms →
      ∀ v ∈ ms, ∃ rec ∈ data, rec.ActualSpecification.isNaNb = false ∧
        rec.ActualSpecification.q = v) ∧
    ((SpcUtils.resultOf data n).map (fun r => r.lslV) =
      (SpcUtils.resultOf data n).map (fun _ =>
        ((data.head?).map (fun rec => rec.FromSpecification)).getD JSVal.nan)) := by
  refine ⟨?_, ?_, ?_, ?_, ?_⟩
  · cases hres : Part000.resultOf data n with
    | none => rfl
    | some r =>
      obtain ⟨c, hc, hlen, hr⟩ := Part000.p0ResultOf_inv hres
      subst hr
      simp only [Option.map_some']
      congr 1
      simp only [Part000.buildResult, Part000.validData]
      rw [filter_head_eq_find]
  · cases hres : Part000.resultOf data n with
    | none => rfl
    | some r =>
      obtain ⟨c, hc, hlen, hr⟩ := Part000.p0ResultOf_inv hres
      subst hr
      simp only [Option.map_some']
      congr 1
      simp only [Part000.buildResult, Part000.validData]
      rw [filter_head_eq_find]
  · intro ms hms
    cases hres : Part000.resultOf data n with
    | none => rw [hres] at hms; simp at hms
    | some r =>
      rw [hres] at hms
      obtain ⟨c, hc, hlen, hr⟩ := Part000.p0ResultOf_inv hres
      subst hr
      simp only [Option.map_some', Option.some.injEq] at hms
      have hms2 : ms = Part000.p0Measurements data := by
        rw [← hms]
        rfl
      subst hms2
      constructor
      · unfold Part000.p0Measurements Part000.validData
        rw [List.length_map, ← List.countP_eq_length_filter]
      · intro v hv
        unfold Part000.p0Measurements Part000.validData at hv
        obtain ⟨rec, hrec, hrecv⟩ := List.mem_map.mp hv
        have := List.mem_filter.mp hrec
        exact ⟨rec, this.1, this.2, hrecv⟩
  · intro ms hms
    cases hres : SpcUtils.resultOf data n with
    | none => rw [hres] at hms; simp at hms
    | some r =>
      rw [hres] at hms
      obtain ⟨c, hc, hlen, hr⟩ := SpcUtils.suResultOf_inv hres
      subst hr
      simp only [Option.map_some', Option.some.injEq] at hms
      have hms2 : ms = SpcUtils.extractMeasurements data := by
        rw [← hms]
        rfl
      subst hms2
      intro v hv
      unfold SpcUtils.extractMeasurements at hv
      obtain ⟨w, hw, hwv⟩ := List.mem_map.mp hv
      have hw2 := List.mem_filter.mp hw
      obtain ⟨rec, hrec, hrecw⟩ := List.mem_map.mp hw2.1
      refine ⟨rec, hrec, ?_, ?_⟩
      · have := hw2.2
        rw [hrecw]
        simpa using this
      · rw [hrecw]
        exact hwv
  · cases hres : SpcUtils.resultOf data n with
    | none => rfl
    | some r =>
      obtain ⟨c, hc, hlen, hr⟩ := SpcUtils.suResultOf_inv hres
      subst hr
      simp only [Option.map_some']
      congr 1

/-- C2, witness: the amended theorem instantiated at the counterexample's
input — `part_000`'s `lsl` really is the first *retained* record's value,
and its single measurement comes from a valid record. -/
theorem claim_C2_witness :
    ((Part000.resultOf
        [⟨JSVal.num 4, JSVal.nan, JSVal.num 9⟩, ⟨JSVal.num 5, JSVal.num 1, JSVal.num 9⟩] 1).map
        (fun r => r.lsl) =
      (Part000.resultOf
        [⟨JSVal.num 4, JSVal.nan, JSVal.num 9⟩, ⟨JSVal.num 5, JSVal.num 1, JSVal.num 9⟩] 1).map
        (fun _ =>
          (([(⟨JSVal.num 4, JSVal.nan, JSVal.num 9⟩ : InspectionData),
             ⟨JSVal.num 5, JSVal.num 1, JSVal.num 9⟩].find? Part000.validB).map
            (fun rec => rec.FromSpecification.q)).getD 0)) ∧
    (([5] : List ℚ).length =
      [(⟨JSVal.num 4, JSVal.nan, JSVal.num 9⟩ : InspectionData),
       ⟨JSVal.num 5, JSVal.num 1, JSVal.num 9⟩].countP Part000.validB ∧
      ∀ v ∈ ([5] : List ℚ),
        ∃ rec ∈ [(⟨JSVal.num 4, JSVal.nan, JSVal.num 9⟩ : InspectionData),
                  ⟨JSVal.num 5, JSVal.num 1, JSVal.num 9⟩],
          Part000.validB rec = true ∧ rec.ActualSpecification.q = v) := by
  constructor
  · exact (claim_C2_amended
      [⟨JSVal.num 4, JSVal.nan, JSVal.num 9⟩, ⟨JSVal.num 5, JSVal.num 1, JSVal.num 9⟩] 1).1
  · exact (claim_C2_amended
      [⟨JSVal.num 4, JSVal.nan, JSVal.num 9⟩, ⟨JSVal.num 5, JSVal.num 1, JSVal.num 9⟩] 1).2.2.1
      [5] (by decide)

/-- The source's variance with an explicitly supplied centre is the
specification's population variance around that centre (divide by `N`). -/
lemma calculateVariance_some_eq {ms : List ℚ} (m : ℚ) (hne : ms ≠ []) :
    calculateVariance ms (some m) = some (specPopVariance ms m) := by
  unfold calculateVariance
  rw [if_neg hne]
  dsimp only
  have hmapne : ms.map (fun v => (v - m) ^ 2) ≠ [] := by
    intro hmap
    exact hne (List.map_eq_nil_iff.mp hmap)
  rw [calculateMean_eq_some hmapne]
  unfold specPopVariance
  rw [List.length_map]

/-- The source's variance with no supplied centre recomputes the flat mean
of the series and measures deviations from it. -/
lemma calculateVariance_none_eq {ms : List ℚ} (hne : ms ≠ []) :
    calculateVariance ms none = some (specPopVariance ms (specMean ms)) := by
  unfold calculateVariance
  rw [if_neg hne]
  dsimp only
  rw [calculateMean_eq_some hne]
  dsimp only
  rw [calculateMean_eq_some (by
    intro hmap
    exact hne (List.map_eq_nil_iff.mp hmap))]
  unfold specPopVariance specMean
  rw [List.length_map]

/-- C4, counterexample.  The claim says `overallStdDev` is the population
standard deviation of the raw series around the subgrouped grand mean.
Input `[0, 0, 3]` at sample size 2 gives subgroups `[0,0]`, `[3]`, grand
mean `3/2`, flat mean `1`.  `spcUtils.ts` line 154 passes no mean to
`calculateStdDev`, so its variance is `2` (around the flat mean `1`),
while the claimed variance around the grand mean `3/2` is `9/4`; the two
standard deviations `sqrt 2` and `sqrt (9/4)` differ.  (`part_000`
matches the claim, with variance `9/4`.) -/
theorem claim_C4_counterexample :
    (SpcUtils.resultOf
        [⟨JSVal.num 0, JSVal.num 0, JSVal.num 10⟩, ⟨JSVal.num 0, JSVal.num 0, JSVal.num 10⟩,
         ⟨JSVal.num 3, JSVal.num 0, JSVal.num 10⟩] 2).map
        (fun r => (r.overallVariance, r.xBarMean)) = some (some 2, 3 / 2) ∧
    (Part000.resultOf
        [⟨JSVal.num 0, JSVal.num 0, JSVal.num 10⟩, ⟨JSVal.num 0, JSVal.num 0, JSVal.num 10⟩,
         ⟨JSVal.num 3, JSVal.num 0, JSVal.num 10⟩] 2).map
        (fun r => r.overallVariance) = some (some (9 / 4)) ∧
    specPopVariance [0, 0, 3] (3 / 2) = 9 / 4 ∧
    specPopVariance [0, 0, 3] (specMean [0, 0, 3]) = 2 ∧
    (2 : ℚ) ≠ 9 / 4 ∧
    Real.sqrt 2 ≠ Real.sqrt (9 / 4) := by
  refine ⟨by decide, by decide, by decide, by decide, by decide, ?_⟩
  intro h
  have h2 : (2 : ℝ) = 9 / 4 := (Real.sqrt_inj (by norm_num) (by norm_num)).mp h
  norm_num at h2

/-- C4, amended.  Both variants compute a population variance (divide by
`N`, no Bessel correction) of the raw measurement series, but around
different centres: `part_000` (line 151) centres it on the subgrouped
grand mean, as the claim states, while `spcUtils.ts` (line 154) passes no
centre, so its variance is taken around the recomputed flat mean of the
raw series.  The source's `overallStdDev` is the square root of the
variance shown here. -/
theorem claim_C4_amended (data : List InspectionData) (n : ℕ) :
    (∀ ms gm, (Part000.resultOf data n).map (fun r => r.measurements) = some ms →
      (Part000.resultOf data n).map (fun r => r.xBarMean) = some gm → ms ≠ [] →
      (Part000.resultOf data n).map (fun r => r.overallVariance) =
        some (some (specPopVariance ms gm))) ∧
    (∀ ms, (SpcUtils.resultOf data n).map (fun r => r.measurements) = some ms → ms ≠ [] →
      (SpcUtils.resultOf data n).map (fun r => r.overallVariance) =
        some (some (specPopVariance ms (specMean ms)))) := by
  constructor
  · intro ms gm hms hgm hne
    cases hres : Part000.resultOf data n with
    | none => rw [hres] at hms; simp at hms
    | some r =>
      rw [hres] at hms hgm
      obtain ⟨c, hc, hlen, hr⟩ := Part000.p0ResultOf_inv hres
      subst hr
      simp only [Option.map_some', Option.some.injEq] at hms hgm
      rw [Option.map_some']
      congr 1
      have hmeq : Part000.p0Measurements data = ms := hms
      have hgmeq : (calculateMean (Part000.p0SubgroupMeans (Part000.p0Measurements data) n)).getD 0 = gm := hgm
      show calculateVariance (Part000.p0Measurements data)
          (some ((calculateMean (Part000.p0SubgroupMeans (Part000.p0Measurements data) n)).getD 0)) = _
      rw [hgmeq, hmeq, calculateVariance_some_eq gm hne]
  · intro ms hms hne
    cases hres : SpcUtils.resultOf data n with
    | none => rw [hres] at hms; simp at hms
    | some r =>
      rw [hres] at hms
      obtain ⟨c, hc, hlen, hr⟩ := SpcUtils.suResultOf_inv hres
      subst hr
      simp only [Option.map_some', Option.some.injEq] at hms
      rw [Option.map_some']
      congr 1
      have hmeq : SpcUtils.extractMeasurements data = ms := hms
      show calculateVariance (SpcUtils.extractMeasurements data) none = _
      rw [hmeq, calculateVariance_none_eq hne]

/-- C4, witness: the amended theorem at the counterexample input — the
`part_000` variance is the population variance around the grand mean
`3/2`, and the `spcUtils.ts` variance is the one around the flat mean. -/
theorem claim_C4_witness :
    (Part000.resultOf
        [⟨JSVal.num 0, JSVal.num 0, JSVal.num 10⟩, ⟨JSVal.num 0, JSVal.num 0, JSVal.num 10⟩,
         ⟨JSVal.num 3, JSVal.num 0, JSVal.num 10⟩] 2).map
        (fun r => r.overallVariance) = some (some (specPopVariance [0, 0, 3] (3 / 2))) ∧
    (SpcUtils.resultOf
        [⟨JSVal.num 0, JSVal.num 0, JSVal.num 10⟩, ⟨JSVal.num 0, JSVal.num 0, JSVal.num 10⟩,
         ⟨JSVal.num 3, JSVal.num 0, JSVal.num 10⟩] 2).map
        (fun r => r.overallVariance) =
      some (some (specPopVariance [0, 0, 3] (specMean [0, 0, 3]))) := by
  constructor
  · exact (claim_C4_amended
      [⟨JSVal.num 0, JSVal.num 0, JSVal.num 10⟩, ⟨JSVal.num 0, JSVal.num 0, JSVal.num 10⟩,
       ⟨JSVal.num 3, JSVal.num 0, JSVal.num 10⟩] 2).1 [0, 0, 3] (3 / 2)
      (by decide) (by decide) (by decide)
  · exact (claim_C4_amended
      [⟨JSVal.num 0, JSVal.num 0, JSVal.num 10⟩, ⟨JSVal.num 0, JSVal.num 0, JSVal.num 10⟩,
       ⟨JSVal.num 3, JSVal.num 0, JSVal.num 10⟩] 2).2 [0, 0, 3]
      (by decide) (by decide)

/-- In `part_000`, the maximum trend-up counter reaches `k ≥ 2` exactly
when some strictly-increasing run of consecutive values has at least `k`
points. -/
lemma Part000.analyzeRuns_trendUp_iff (xs : List ℚ) (k : ℕ) (hk : 2 ≤ k) :
    (k ≤ ((Part000.analyzeRuns xs).getD ⟨0, 0, 0, 0, 0⟩).maxTrendUp ↔
      k ≤ maxRelRun (fun a b => decide (a < b)) xs) := by
  rcases xs with _ | ⟨x, t⟩
  · simp [Part000.analyzeRuns, maxRelRun]
  · have hne : (x :: t) ≠ [] := by simp
    unfold Part000.analyzeRuns
    rw [if_neg hne, calculateMean_eq_some hne]
    dsimp only
    rw [Option.getD_some]
    show k ≤ ((consecPairs (x :: t)).foldl Part000.trendStep ⟨0, 0, 1, 1⟩).maxTrendUp ↔ _
    rw [Part000.foldl_trendStep_up]
    rcases t with _ | ⟨y, s⟩
    · show k ≤ trendMachine _ 1 0 (consecPairs [x]) ↔ _
      have hcp : consecPairs [x] = [] := rfl
      rw [hcp]
      simp [trendMachine, maxRelRun, relRunLen]
      omega
    · have hds : consecPairs (x :: y :: s) ≠ [] := by
        rw [consecPairs_cons_cons]
        simp
      show k ≤ trendMachine (fun d => decide (d.1 < d.2)) 1 0 (consecPairs (x :: y :: s)) ↔ _
      rw [trendMachine_one _ _ hds, maxRelRun_cons]

/-- Mirror image of `Part000.analyzeRuns_trendUp_iff` for the
strictly-decreasing direction. -/
lemma Part000.analyzeRuns_trendDown_iff (xs : List ℚ) (k : ℕ) (hk : 2 ≤ k) :
    (k ≤ ((Part000.analyzeRuns xs).getD ⟨0, 0, 0, 0, 0⟩).maxTrendDown ↔
      k ≤ maxRelRun (fun a b => decide (b < a)) xs) := by
  rcases xs with _ | ⟨x, t⟩
  · simp [Part000.analyzeRuns, maxRelRun]
  · have hne : (x :: t) ≠ [] := by simp
    unfold Part000.analyzeRuns
    rw [if_neg hne, calculateMean_eq_some hne]
    dsimp only
    rw [Option.getD_some]
    show k ≤ ((consecPairs (x :: t)).foldl Part000.trendStep ⟨0, 0, 1, 1⟩).maxTrendDown ↔ _
    rw [Part000.foldl_trendStep_down]
    rcases t with _ | ⟨y, s⟩
    · show k ≤ trendMachine _ 1 0 (consecPairs [x]) ↔ _
      have hcp : consecPairs [x] = [] := rfl
      rw [hcp]
      simp [trendMachine, maxRelRun, relRunLen]
      omega
    · have hds : consecPairs (x :: y :: s) ≠ [] := by
        rw [consecPairs_cons_cons]
        simp
      show k ≤ trendMachine (fun d => decide (d.2 < d.1)) 1 0 (consecPairs (x :: y :: s)) ↔ _
      rw [trendMachine_one _ _ hds, maxRelRun_cons]

/-- C5, counterexample.  The claim says the trend signal fires iff a
monotone run of length at least 6 occurs *anywhere* in the series.  On six
strictly increasing subgroup means `[1, 2, 3, 4, 5, 6]` (sample size 1)
the longest strictly-increasing run has 6 points, so the claim demands
"Yes" — but `spcUtils.ts` never tracks a trend maximum: it tests only the
counters left over at the end of the loop (lines 218-219), which hold 5
consecutive increasing differences, below its threshold, so it answers
"No". -/
theorem claim_C5_counterexample :
    (SpcUtils.resultOf
        [⟨JSVal.num 1, JSVal.num 0, JSVal.num 10⟩, ⟨JSVal.num 2, JSVal.num 0, JSVal.num 10⟩,
         ⟨JSVal.num 3, JSVal.num 0, JSVal.num 10⟩, ⟨JSVal.num 4, JSVal.num 0, JSVal.num 10⟩,
         ⟨JSVal.num 5, JSVal.num 0, JSVal.num 10⟩, ⟨JSVal.num 6, JSVal.num 0, JSVal.num 10⟩] 1).map
        (fun r => (r.xBarValues, r.sixConsecutiveTrend)) =
      some ([1, 2, 3, 4, 5, 6], "No") ∧
    6 ≤ maxRelRun (fun a b => decide (a < b)) [1, 2, 3, 4, 5, 6] := by
  constructor
  · decide
  · decide

/-- C5, amended.  The `part_000` variant satisfies the claim: its
`sixConsecutiveTrend` is "Yes" exactly when the longest strictly
increasing or strictly decreasing run of consecutive subgroup means,
taken anywhere in the series (equal neighbours resetting), has at least 6
points.  The `spcUtils.ts` variant does not satisfy this: it fires only
on the final counter values, i.e. when the series *ends* with at least 6
consecutive same-direction differences. -/
theorem claim_C5_amended (data : List InspectionData) (n : ℕ) :
    ∀ means, (Part000.resultOf data n).map (fun r => r.xBarValues) = some means →
      ((Part000.resultOf data n).map (fun r => r.sixConsecutiveTrend) = some "Yes" ↔
        6 ≤ maxRelRun (fun a b => decide (a < b)) means ∨
        6 ≤ maxRelRun (fun a b => decide (b < a)) means) := by
  intro means hmeans
  cases hres : Part000.resultOf data n with
  | none => rw [hres] at hmeans; simp at hmeans
  | some r =>
    rw [hres] at hmeans
    obtain ⟨c, hc, hlen, hr⟩ := Part000.p0ResultOf_inv hres
    subst hr
    simp only [Option.map_some', Option.some.injEq] at hmeans
    rw [Option.map_some', Option.some_inj]
    have hm : Part000.p0SubgroupMeans (Part000.p0Measurements data) n = means := hmeans
    show (if 6 ≤ max ((Part000.analyzeRuns
        (Part000.p0SubgroupMeans (Part000.p0Measurements data) n)).getD ⟨0,0,0,0,0⟩).maxTrendUp
        ((Part000.analyzeRuns
        (Part000.p0SubgroupMeans (Part000.p0Measurements data) n)).getD ⟨0,0,0,0,0⟩).maxTrendDown
      then "Yes" else "No") = "Yes" ↔ _
    rw [hm, ifString_eq_left_iff _ (by decide), le_max_iff,
      Part000.analyzeRuns_trendUp_iff means 6 (by omega),
      Part000.analyzeRuns_trendDown_iff means 6 (by omega)]

/-- C5, witness: the amended theorem at the counterexample input, where
`part_000` answers "Yes" and a 6-point increasing run exists. -/
theorem claim_C5_witness :
    (Part000.resultOf
        [⟨JSVal.num 1, JSVal.num 0, JSVal.num 10⟩, ⟨JSVal.num 2, JSVal.num 0, JSVal.num 10⟩,
         ⟨JSVal.num 3, JSVal.num 0, JSVal.num 10⟩, ⟨JSVal.num 4, JSVal.num 0, JSVal.num 10⟩,
         ⟨JSVal.num 5, JSVal.num 0, JSVal.num 10⟩, ⟨JSVal.num 6, JSVal.num 0, JSVal.num 10⟩] 1).map
        (fun r => r.sixConsecutiveTrend) = some "Yes" := by
  have h := claim_C5_amended
    [⟨JSVal.num 1, JSVal.num 0, JSVal.num 10⟩, ⟨JSVal.num 2, JSVal.num 0, JSVal.num 10⟩,
     ⟨JSVal.num 3, JSVal.num 0, JSVal.num 10⟩, ⟨JSVal.num 4, JSVal.num 0, JSVal.num 10⟩,
     ⟨JSVal.num 5, JSVal.num 0, JSVal.num 10⟩, ⟨JSVal.num 6, JSVal.num 0, JSVal.num 10⟩] 1
    [1, 2, 3, 4, 5, 6] (by decide)
  exact h.mpr (Or.inl (by decide))

/-- C6, counterexample.  The claim says a point exactly equal to the grand
mean is classified as neither above nor below and breaks any run, and the
8-point signal fires only for strictly-above or strictly-below streaks.
In `part_000` a point is classified by the single boolean `value > mean`,
so eight points all exactly *at* the mean count as one 8-long
"not-above" run: on eight identical measurements it answers "Yes"
although no strictly-above and no strictly-below streak exists at all
(both have length 0).  (`spcUtils.ts` answers "No" as claimed.) -/
theorem claim_C6_counterexample :
    (Part000.resultOf (List.replicate 8 ⟨JSVal.num 10, JSVal.num 5, JSVal.num 15⟩) 1).map
        (fun r => (r.xBarValues, r.xBarMean, r.eightConsecutivePoints)) =
      some (List.replicate 8 10, 10, "Yes") ∧
    maxPRun (fun y => decide ((10 : ℚ) < y)) (List.replicate 8 (10 : ℚ)) = 0 ∧
    maxPRun (fun y => decide (y < (10 : ℚ))) (List.replicate 8 (10 : ℚ)) = 0 ∧
    (SpcUtils.resultOf (List.replicate 8 ⟨JSVal.num 10, JSVal.num 5, JSVal.num 15⟩) 1).map
        (fun r => r.eightConsecutivePoints) = some "No" := by
  refine ⟨by decide, by decide, by decide, by decide⟩

/-- C6, amended.  The `spcUtils.ts` variant satisfies the claim: its
`eightConsecutivePoints` is "Yes" exactly when some streak of consecutive
subgroup means strictly above the grand mean, or strictly below it, has
length at least 8 — a point equal to the grand mean satisfies neither
strict comparison and so breaks every run.  The `part_000` variant does
not satisfy this: it groups at-mean points with the not-above side. -/
theorem claim_C6_amended (data : List InspectionData) (n : ℕ) :
    ∀ means gm, (SpcUtils.resultOf data n).map (fun r => r.xBarValues) = some means →
      (SpcUtils.resultOf data n).map (fun r => r.xBarMean) = some gm →
      ((SpcUtils.resultOf data n).map (fun r => r.eightConsecutivePoints) = some "Yes" ↔
        8 ≤ maxPRun (fun y => decide (gm < y)) means ∨
        8 ≤ maxPRun (fun y => decide (y < gm)) means) := by
  intro means gm hmeans hgm
  cases hres : SpcUtils.resultOf data n with
  | none => rw [hres] at hmeans; simp at hmeans
  | some r =>
    rw [hres] at hmeans hgm
    obtain ⟨c, hc, hlen, hr⟩ := SpcUtils.suResultOf_inv hres
    subst hr
    simp only [Option.map_some', Option.some.injEq] at hmeans hgm
    rw [Option.map_some', Option.some_inj]
    have hm : SpcUtils.calculateSubgroupXBar (SpcUtils.extractMeasurements data) n = means :=
      hmeans
    have hg : (calculateMean
        (SpcUtils.calculateSubgroupXBar (SpcUtils.extractMeasurements data) n)).getD 0 = gm :=
      hgm
    show (if (8 ≤ (SpcUtils.runScan
          ((calculateMean (SpcUtils.calculateSubgroupXBar
            (SpcUtils.extractMeasurements data) n)).getD 0)
          (SpcUtils.calculateSubgroupXBar (SpcUtils.extractMeasurements data) n)).maxConsecutiveAbove ∨
        8 ≤ (SpcUtils.runScan
          ((calculateMean (SpcUtils.calculateSubgroupXBar
            (SpcUtils.extractMeasurements data) n)).getD 0)
          (SpcUtils.calculateSubgroupXBar (SpcUtils.extractMeasurements data) n)).maxConsecutiveBelow)
      then "Yes" else "No") = "Yes" ↔ _
    rw [hg, hm, ifString_eq_left_iff _ (by decide),
      SpcUtils.runScan_above, SpcUtils.runScan_below]

/-- C6, witness: the amended theorem on measurements `[0, 5, 5, 5, 5, 5,
5, 5, 5]` at sample size 1, whose grand mean is `40/9`: the eight trailing
points are strictly above it, and `spcUtils.ts` answers "Yes". -/
theorem claim_C6_witness :
    ((SpcUtils.resultOf
        [⟨JSVal.num 0, JSVal.num 0, JSVal.num 10⟩, ⟨JSVal.num 5, JSVal.num 0, JSVal.num 10⟩,
         ⟨JSVal.num 5, JSVal.num 0, JSVal.num 10⟩, ⟨JSVal.num 5, JSVal.num 0, JSVal.num 10⟩,
         ⟨JSVal.num 5, JSVal.num 0, JSVal.num 10⟩, ⟨JSVal.num 5, JSVal.num 0, JSVal.num 10⟩,
         ⟨JSVal.num 5, JSVal.num 0, JSVal.num 10⟩, ⟨JSVal.num 5, JSVal.num 0, JSVal.num 10⟩,
         ⟨JSVal.num 5, JSVal.num 0, JSVal.num 10⟩] 1).map
        (fun r => r.eightConsecutivePoints) = some "Yes") := by
  have h := claim_C6_amended
    [⟨JSVal.num 0, JSVal.num 0, JSVal.num 10⟩, ⟨JSVal.num 5, JSVal.num 0, JSVal.num 10⟩,
     ⟨JSVal.num 5, JSVal.num 0, JSVal.num 10⟩, ⟨JSVal.num 5, JSVal.num 0, JSVal.num 10⟩,
     ⟨JSVal.num 5, JSVal.num 0, JSVal.num 10⟩, ⟨JSVal.num 5, JSVal.num 0, JSVal.num 10⟩,
     ⟨JSVal.num 5, JSVal.num 0, JSVal.num 10⟩, ⟨JSVal.num 5, JSVal.num 0, JSVal.num 10⟩,
     ⟨JSVal.num 5, JSVal.num 0, JSVal.num 10⟩] 1
    [0, 5, 5, 5, 5, 5, 5, 5, 5] (40 / 9) (by decide) (by decide)
  exact h.mpr (Or.inl (by decide))

lemma ite_range_sum (i0 cnt : ℕ) :
    ((List.range cnt).map (fun i => if i0 = i then 1 else 0)).sum =
      if i0 < cnt then 1 else 0 := by
  induction cnt with
  | zero => simp
  | succ c ih =>
    rw [List.range_succ, List.map_append, List.sum_append, ih]
    by_cases h1 : i0 < c
    · have h2 : i0 < c + 1 := by omega
      have h3 : ¬ i0 = c := by omega
      simp [h1, h2, h3]
    · by_cases h4 : i0 = c
      · subst h4
        simp [h1]
      · have h5 : ¬ i0 < c + 1 := by omega
        simp [h1, h4, h5]

lemma countP_partition_sum (f : ℚ → Option ℕ) (cnt : ℕ) (l : List ℚ)
    (h : ∀ v ∈ l, ∃ i, f v = some i ∧ i < cnt) :
    ((List.range cnt).map (fun i => l.countP (fun v => decide (f v = some i)))).sum =
      l.length := by
  induction l with
  | nil => simp
  | cons v t ih =>
    have hv := h v (by simp)
    obtain ⟨i0, hi0, hcnt⟩ := hv
    have ht : ∀ w ∈ t, ∃ i, f w = some i ∧ i < cnt := fun w hw => h w (by simp [hw])
    have hsplit : ∀ i : ℕ, (v :: t).countP (fun w => decide (f w = some i)) =
        t.countP (fun w => decide (f w = some i)) + (if i0 = i then 1 else 0) := by
      intro i
      rw [List.countP_cons]
      congr 1
      by_cases he : i0 = i
      · subst he
        simp [hi0]
      · have : ¬ f v = some i := by
          rw [hi0]
          intro hcontra
          exact he (Option.some.inj hcontra)
        simp [this, he]
    have hmapeq : (List.range cnt).map
        (fun i => (v :: t).countP (fun w => decide (f w = some i))) =
        (List.range cnt).map (fun i =>
          t.countP (fun w => decide (f w = some i)) + (if i0 = i then 1 else 0)) := by
      apply List.map_congr_left
      intro i _
      exact hsplit i
    rw [hmapeq]
    have hadd : ((List.range cnt).map (fun i =>
        t.countP (fun w => decide (f w = some i)) + (if i0 = i then 1 else 0))).sum =
        ((List.range cnt).map (fun i => t.countP (fun w => decide (f w = some i)))).sum +
        ((List.range cnt).map (fun i => (if i0 = i then 1 else 0))).sum := by
      induction (List.range cnt) with
      | nil => simp
      | cons a s ihs =>
        simp only [List.map_cons, List.sum_cons, ihs]
        omega
    rw [hadd, ih ht, ite_range_sum, if_pos hcnt, List.length_cons]

lemma listMax_ge_mem : ∀ (l : List ℚ), ∀ v ∈ l, v ≤ listMax l := by
  have haux : ∀ (t : List ℚ) (a : ℚ), ∀ v ∈ t, v ≤ t.foldl max a := by
    intro t
    induction t with
    | nil => intro a v hv; simp at hv
    | cons y s ih =>
      intro a v hv
      rcases List.mem_cons.mp hv with h1 | h2
      · subst h1
        calc v ≤ max a v := le_max_right a v
        _ ≤ s.foldl max (max a v) := le_foldl_max s (max a v)
      · exact ih (max a y) v h2
  intro l v hv
  rcases l with _ | ⟨x, t⟩
  · simp at hv
  · rcases List.mem_cons.mp hv with h1 | h2
    · subst h1
      exact le_foldl_max t v
    · exact haux t x v h2

lemma listMin_le_mem : ∀ (l : List ℚ), ∀ v ∈ l, listMin l ≤ v := by
  have haux : ∀ (t : List ℚ) (a : ℚ), ∀ v ∈ t, t.foldl min a ≤ v := by
    intro t
    induction t with
    | nil => intro a v hv; simp at hv
    | cons y s ih =>
      intro a v hv
      rcases List.mem_cons.mp hv with h1 | h2
      · subst h1
        calc s.foldl min (min a v) ≤ min a v := foldl_min_le s (min a v)
        _ ≤ v := min_le_right a v
      · exact ih (min a y) v h2
  intro l v hv
  rcases l with _ | ⟨x, t⟩
  · simp at hv
  · rcases List.mem_cons.mp hv with h1 | h2
    · subst h1
      exact foldl_min_le t v
    · exact haux t x v h2

lemma ceilSqrt_pos {n : ℕ} (hn : 1 ≤ n) : 1 ≤ ceilSqrt n := by
  unfold ceilSqrt
  cases hf : (List.range (n + 1)).find? (fun k => decide (n ≤ k * k)) with
  | none => simpa using hn
  | some k =>
    have hk := List.find?_some hf
    simp only [decide_eq_true_eq] at hk
    rw [Option.getD_some]
    by_contra hcontra
    have hk0 : k = 0 := by omega
    subst hk0
    omega

lemma binIndexOf_total (data : List ℚ) (lsl : ℚ) (hne : data ≠ [])
    (hcase : listMin data ≤ lsl ∨ listMax data = listMin data) :
    ∀ v ∈ data, ∃ i,
      binIndexOf (listMax data) (min (listMin data) lsl)
          ((listMax data - listMin data) / (ceilSqrt data.length : ℚ))
          (ceilSqrt data.length) v = some i ∧
        i < ceilSqrt data.length := by
  have hlen1 : 1 ≤ data.length := by
    rcases data with _ | ⟨x, t⟩
    · exact absurd rfl hne
    · simp
  have hcnt1 : 1 ≤ ceilSqrt data.length := ceilSqrt_pos hlen1
  intro v hv
  by_cases hvmax : v = listMax data
  · refine ⟨ceilSqrt data.length - 1, ?_, by omega⟩
    unfold binIndexOf
    rw [if_pos hvmax]
  · rcases hcase with hlsl | hmaxmin
    · have hvle : v ≤ listMax data := listMax_ge_mem data v hv
      have hvlt : v < listMax data := lt_of_le_of_ne hvle hvmax
      have hminv : listMin data ≤ v := listMin_le_mem data v hv
      have hmm : listMin data < listMax data := lt_of_le_of_lt hminv hvlt
      have hcpos : (0 : ℚ) < (ceilSqrt data.length : ℚ) := by
        exact_mod_cast hcnt1
      have hw : (0 : ℚ) < (listMax data - listMin data) / (ceilSqrt data.length : ℚ) :=
        div_pos (sub_pos.mpr hmm) hcpos
      have hstart : min (listMin data) lsl = listMin data := min_eq_left hlsl
      set w := (listMax data - listMin data) / (ceilSqrt data.length : ℚ) with hwdef
      set k := ⌊(v - min (listMin data) lsl) / w⌋ with hkdef
      have hk0 : 0 ≤ k := by
        rw [hkdef]
        apply Int.floor_nonneg.mpr
        apply div_nonneg _ (le_of_lt hw)
        rw [hstart]
        exact sub_nonneg.mpr hminv
      have hklt : k < (ceilSqrt data.length : ℤ) := by
        rw [hkdef]
        apply Int.floor_lt.mpr
        push_cast
        rw [hstart]
        apply (div_lt_iff hw).mpr
        rw [hwdef]
        rw [mul_div_cancel₀ _ (ne_of_gt hcpos)]
        have : v < listMax data := hvlt
        linarith
      refine ⟨k.toNat, ?_, ?_⟩
      · unfold binIndexOf
        rw [if_neg hvmax, if_neg (ne_of_gt hw)]
        rw [if_pos ⟨hk0, hklt⟩]
      · have h1 : (k.toNat : ℤ) = k := Int.toNat_of_nonneg hk0
        omega
    · exfalso
      apply hvmax
      have hvle : v ≤ listMax data := listMax_ge_mem data v hv
      have h2 : listMax data ≤ v := by
        rw [hmaxmin]
        exact listMin_le_mem data v hv
      exact le_antisymm hvle h2

/-- C8, amended.  For every nonempty measurement series: when the
histogram is not extended leftward below the data (`lsl` at least the
series minimum), or when the series is constant, the bin counts sum to the
number of measurements — every value lands in exactly one bin; and
unconditionally, any value equal to the series maximum is placed in the
last bin.  (When `lsl` lies strictly below the minimum of a non-constant
series, interior values can be floor-mapped past the last bin and are
silently discarded, so the unconditional sum equality of the original
claim fails — see the counterexample.) -/
theorem claim_C8_amended (data : List ℚ) (lsl usl : ℚ) (d : Distribution)
    (hne : data ≠ []) (hd : calculateDistributionData data lsl usl = some d) :
    ((listMin data ≤ lsl ∨ listMax data = listMin data) → d.bins.sum = data.length) ∧
    (∀ v ∈ data, v = d.maxV →
      binIndexOf d.maxV d.binStart d.binWidth d.binCount v = some (d.binCount - 1)) := by
  unfold calculateDistributionData at hd
  rw [if_neg hne] at hd
  have hd2 := Option.some.inj hd
  subst hd2
  constructor
  · intro hcase
    exact countP_partition_sum _ _ data (binIndexOf_total data lsl hne hcase)
  · intro v hv hveq
    unfold binIndexOf
    rw [if_pos hveq]

/-- C8, counterexample.  The claim asserts the bin counts always sum to
the number of measurements.  For the series `[0, 10]` with `lsl = -100`
the histogram start is pulled down to `-100` while the bin width `5` is
computed from the data range alone, so the value `0` floor-maps to bin
index `20`, far beyond the 2 bins, and is discarded: the counts sum to 1,
not 2. -/
theorem claim_C8_counterexample :
    (calculateDistributionData [0, 10] (-100) 20).map (fun d => (d.bins, d.bins.sum)) =
      some ([0, 1], 1) ∧
    ([0, 10] : List ℚ).length = 2 := by
  constructor
  · decide
  · decide

/-- C8, witness: the amended theorem on `[1, 2, 3]` with `lsl = 1`
(no leftward extension): bins `[1, 2]` sum to the 3 measurements. -/
theorem claim_C8_witness :
    calculateDistributionData [1, 2, 3] 1 5 = some ⟨2, 1, 1, 3, 1, [1, 2], 2, 3⟩ ∧
    ([1, 2] : List ℕ).sum = ([1, 2, 3] : List ℚ).length := by
  have hd : calculateDistributionData [1, 2, 3] 1 5 = some ⟨2, 1, 1, 3, 1, [1, 2], 2, 3⟩ := by
    decide
  refine ⟨hd, ?_⟩
  exact (claim_C8_amended [1, 2, 3] 1 5 _ (by decide) hd).1 (Or.inl (by decide))

/-- C9, amended.  For sample size at least 2 and a measurement count of
`1 (mod n)` (so the final chunk is a single element): in `spcUtils.ts` the
singleton chunk contributes a mean but no range — the mean series is
exactly one longer than the range series — as the claim states; in
`part_000` the singleton chunk also contributes `max - min = 0` to the
range series, which therefore has the same length as the mean series and
ends in a recorded zero. -/
theorem claim_C9_amended (data : List InspectionData) (n : ℕ) (h2 : 2 ≤ n) :
    (∀ ms, (SpcUtils.resultOf data n).map (fun r => r.measurements) = some ms →
      ms.length % n = 1 →
      (SpcUtils.resultOf data n).map (fun r => r.xBarValues.length) =
        (SpcUtils.resultOf data n).map (fun r => r.rangeValues.length + 1)) ∧
    (∀ ms, (Part000.resultOf data n).map (fun r => r.measurements) = some ms →
      ms.length % n = 1 →
      (Part000.resultOf data n).map (fun r => (r.xBarValues.length, r.rangeValues.getLast?)) =
        (Part000.resultOf data n).map (fun r => (r.rangeValues.length, some (0 : ℚ)))) := by
  constructor
  · intro ms hms hmod
    cases hres : SpcUtils.resultOf data n with
    | none => rw [hres] at hms; simp at hms
    | some r =>
      rw [hres] at hms
      obtain ⟨c, hc, hlen, hr⟩ := SpcUtils.suResultOf_inv hres
      subst hr
      simp only [Option.map_some', Option.some.injEq] at hms
      have hmeq : SpcUtils.extractMeasurements data = ms := hms
      simp only [Option.map_some', Option.some.injEq]
      have hne : ms ≠ [] := by
        intro hnil
        rw [hnil] at hmod
        simp at hmod
      obtain ⟨cs, x, hcx, hfull⟩ := chunk_structure n ms h2 hne hmod
      have hn1 : ¬ n = 1 := by omega
      show (SpcUtils.calculateSubgroupXBar (SpcUtils.extractMeasurements data) n).length =
        (SpcUtils.calculateSubgroupRanges (SpcUtils.extractMeasurements data) n).length + 1
      rw [hmeq]
      unfold SpcUtils.calculateSubgroupXBar SpcUtils.calculateSubgroupRanges
      rw [if_neg hn1, if_neg hn1, hcx]
      have hfilter : (cs ++ [[x]]).filter (fun g => decide (1 < g.length)) = cs := by
        rw [List.filter_append]
        have hcs : cs.filter (fun g => decide (1 < g.length)) = cs := by
          apply List.filter_eq_self.mpr
          intro g hg
          have := hfull g hg
          simp [this]
          omega
        have hx1 : ([[x]] : List (List ℚ)).filter (fun g => decide (1 < g.length)) = [] := by
          simp
        rw [hcs, hx1, List.append_nil]
      rw [hfilter]
      simp
  · intro ms hms hmod
    cases hres : Part000.resultOf data n with
    | none => rw [hres] at hms; simp at hms
    | some r =>
      rw [hres] at hms
      obtain ⟨c, hc, hlen, hr⟩ := Part000.p0ResultOf_inv hres
      subst hr
      simp only [Option.map_some', Option.some.injEq] at hms
      have hmeq : Part000.p0Measurements data = ms := hms
      simp only [Option.map_some', Option.some.injEq]
      have hne : ms ≠ [] := by
        intro hnil
        rw [hnil] at hmod
        simp at hmod
      obtain ⟨cs, x, hcx, hfull⟩ := chunk_structure n ms h2 hne hmod
      have hn1 : ¬ n = 1 := by omega
      show ((Part000.p0SubgroupMeans (Part000.p0Measurements data) n).length,
          (Part000.p0SubgroupRanges (Part000.p0Measurements data) n).getLast?) =
        ((Part000.p0SubgroupRanges (Part000.p0Measurements data) n).length, some (0 : ℚ))
      rw [hmeq]
      unfold Part000.p0SubgroupMeans Part000.p0SubgroupRanges
      rw [if_neg hn1, if_neg hn1, hcx]
      rw [Prod.mk.injEq]
      constructor
      · simp
      · rw [List.map_append]
        show (_ ++ [listMax [x] - listMin [x]]).getLast? = _
        rw [List.getLast?_concat]
        simp [listMax, listMin]

/-- C9, counterexample.  The claim says a final 1-element chunk is
excluded from the range series, not recorded as a zero range.  On
measurements `[1, 2, 3]` at sample size 2 the chunks are `[1, 2]` and
`[3]`: `spcUtils.ts` produces ranges `[1]` as claimed, but `part_000`
(lines 139-147) pushes `max - min` for every nonempty chunk and produces
`[1, 0]` — the singleton chunk is recorded as a zero range. -/
theorem claim_C9_counterexample :
    (Part000.resultOf
        [⟨JSVal.num 1, JSVal.num 0, JSVal.num 10⟩, ⟨JSVal.num 2, JSVal.num 0, JSVal.num 10⟩,
         ⟨JSVal.num 3, JSVal.num 0, JSVal.num 10⟩] 2).map
        (fun r => (r.xBarValues, r.rangeValues)) = some ([3 / 2, 3], [1, 0]) ∧
    (SpcUtils.resultOf
        [⟨JSVal.num 1, JSVal.num 0, JSVal.num 10⟩, ⟨JSVal.num 2, JSVal.num 0, JSVal.num 10⟩,
         ⟨JSVal.num 3, JSVal.num 0, JSVal.num 10⟩] 2).map
        (fun r => (r.xBarValues, r.rangeValues)) = some ([3 / 2, 3], [1]) := by
  constructor
  · decide
  · decide

/-- C9, witness: the amended theorem at the counterexample input
(3 measurements, sample size 2). -/
theorem claim_C9_witness :
    ((SpcUtils.resultOf
        [⟨JSVal.num 1, JSVal.num 0, JSVal.num 10⟩, ⟨JSVal.num 2, JSVal.num 0, JSVal.num 10⟩,
         ⟨JSVal.num 3, JSVal.num 0, JSVal.num 10⟩] 2).map (fun r => r.xBarValues.length) =
      (SpcUtils.resultOf
        [⟨JSVal.num 1, JSVal.num 0, JSVal.num 10⟩, ⟨JSVal.num 2, JSVal.num 0, JSVal.num 10⟩,
         ⟨JSVal.num 3, JSVal.num 0, JSVal.num 10⟩] 2).map (fun r => r.rangeValues.length + 1)) ∧
    ((Part000.resultOf
        [⟨JSVal.num 1, JSVal.num 0, JSVal.num 10⟩, ⟨JSVal.num 2, JSVal.num 0, JSVal.num 10⟩,
         ⟨JSVal.num 3, JSVal.num 0, JSVal.num 10⟩] 2).map
        (fun r => (r.xBarValues.length, r.rangeValues.getLast?)) =
      (Part000.resultOf
        [⟨JSVal.num 1, JSVal.num 0, JSVal.num 10⟩, ⟨JSVal.num 2, JSVal.num 0, JSVal.num 10⟩,
         ⟨JSVal.num 3, JSVal.num 0, JSVal.num 10⟩] 2).map
        (fun r => (r.rangeValues.length, some (0 : ℚ)))) := by
  constructor
  · exact (claim_C9_amended
      [⟨JSVal.num 1, JSVal.num 0, JSVal.num 10⟩, ⟨JSVal.num 2, JSVal.num 0, JSVal.num 10⟩,
       ⟨JSVal.num 3, JSVal.num 0, JSVal.num 10⟩] 2 (by omega)).1 [1, 2, 3]
      (by decide) (by decide)
  · exact (claim_C9_amended
      [⟨JSVal.num 1, JSVal.num 0, JSVal.num 10⟩, ⟨JSVal.num 2, JSVal.num 0, JSVal.num 10⟩,
       ⟨JSVal.num 3, JSVal.num 0, JSVal.num 10⟩] 2 (by omega)).2 [1, 2, 3]
      (by decide) (by decide)

lemma movingRanges_nonneg (ms : List ℚ) : ∀ x ∈ movingRanges ms, 0 ≤ x := by
  intro x hx
  obtain ⟨d, hd, hdx⟩ := List.mem_map.mp hx
  rw [← hdx]
  exact abs_nonneg _

lemma SpcUtils.suRanges_nonneg (ms : List ℚ) (n : ℕ) :
    ∀ x ∈ SpcUtils.calculateSubgroupRanges ms n, 0 ≤ x := by
  intro x hx
  unfold SpcUtils.calculateSubgroupRanges at hx
  by_cases hn : n = 1
  · rw [if_pos hn] at hx
    exact movingRanges_nonneg ms x hx
  · rw [if_neg hn] at hx
    obtain ⟨g, hg, hgx⟩ := List.mem_map.mp hx
    have hg2 : g ∈ chunkList n ms := List.mem_of_mem_filter hg
    obtain ⟨hgne, _⟩ := chunkList_mem ms g hg2
    rw [← hgx]
    exact sub_nonneg.mpr (listMin_le_listMax hgne)

lemma Part000.p0Ranges_nonneg (ms : List ℚ) (n : ℕ) :
    ∀ x ∈ Part000.p0SubgroupRanges ms n, 0 ≤ x := by
  intro x hx
  unfold Part000.p0SubgroupRanges at hx
  by_cases hn : n = 1
  · rw [if_pos hn] at hx
    exact movingRanges_nonneg ms x hx
  · rw [if_neg hn] at hx
    obtain ⟨g, hg, hgx⟩ := List.mem_map.mp hx
    obtain ⟨hgne, _⟩ := chunkList_mem ms g hg
    rw [← hgx]
    exact sub_nonneg.mpr (listMin_le_listMax hgne)

lemma controlChartConstants_D3 {n : ℕ} {c : CCConsts}
    (hc : controlChartConstants n = some c) : c.D3 = 0 := by
  match n with
  | 0 => simp [controlChartConstants] at hc
  | 1 => simp [controlChartConstants] at hc; rw [← hc]
  | 2 => simp [controlChartConstants] at hc; rw [← hc]
  | 3 => simp [controlChartConstants] at hc; rw [← hc]
  | 4 => simp [controlChartConstants] at hc; rw [← hc]
  | 5 => simp [controlChartConstants] at hc; rw [← hc]
  | k + 6 => simp [controlChartConstants] at hc

/-- C10, confirmed.  In both variants, for any input of finite
measurements and any sample size: every constants-table entry has
`D3 = 0`, so the range-chart lower control limit is exactly `0`; every
range value (a moving range `|x[i] - x[i-1]|` or a subgroup `max - min`)
is nonnegative, hence no range point is ever strictly below the lower
range limit; and the out-of-limits count for the range chart therefore
equals the count of points strictly above `rangeUcl` alone. -/
theorem claim_C10_confirmed (data : List InspectionData) (n : ℕ)
    (hfin : ∀ rec ∈ data, rec.ActualSpecification.noInfB = true) :
    (∀ c, controlChartConstants n = some c → c.D3 = 0) ∧
    ((SpcUtils.resultOf data n).map (fun r => r.rangeLcl) =
      (SpcUtils.resultOf data n).map (fun _ => (0 : ℚ))) ∧
    ((SpcUtils.resultOf data n).map
        (fun r => r.rangeValues.all (fun y => !decide (y < r.rangeLcl))) =
      (SpcUtils.resultOf data n).map (fun _ => true)) ∧
    ((SpcUtils.resultOf data n).map (fun r => r.pointsOutsideRangeLimits) =
      (SpcUtils.resultOf data n).map
        (fun r => r.rangeValues.countP (fun y => decide (r.rangeUcl < y)))) ∧
    ((Part000.resultOf data n).map (fun r => r.rangeLcl) =
      (Part000.resultOf data n).map (fun _ => (0 : ℚ))) ∧
    ((Part000.resultOf data n).map
        (fun r => r.rangeValues.all (fun y => !decide (y < r.rangeLcl))) =
      (Part000.resultOf data n).map (fun _ => true)) ∧
    ((Part000.resultOf data n).map (fun r => r.pointsOutsideRangeLimits) =
      (Part000.resultOf data n).map
        (fun r => r.rangeValues.countP (fun y => decide (r.rangeUcl < y)))) := by
  refine ⟨fun c hc => controlChartConstants_D3 hc, ?_, ?_, ?_, ?_, ?_, ?_⟩
  · cases hres : SpcUtils.resultOf data n with
    | none => rfl
    | some r =>
      obtain ⟨c, hc, hlen, hr⟩ := SpcUtils.suResultOf_inv hres
      subst hr
      simp only [Option.map_some', Option.some.injEq]
      show c.D3 * _ = 0
      rw [controlChartConstants_D3 hc, zero_mul]
  · cases hres : SpcUtils.resultOf data n with
    | none => rfl
    | some r =>
      obtain ⟨c, hc, hlen, hr⟩ := SpcUtils.suResultOf_inv hres
      subst hr
      simp only [Option.map_some', Option.some.injEq]
      rw [List.all_eq_true]
      intro y hy
      have h0 : (0 : ℚ) ≤ y := SpcUtils.suRanges_nonneg _ n y hy
      have hlcl : (SpcUtils.buildResult data n c).rangeLcl = 0 := by
        show c.D3 * _ = 0
        rw [controlChartConstants_D3 hc, zero_mul]
      rw [hlcl]
      have hnl : ¬ y < 0 := not_lt.mpr h0
      simp [hnl]
  · cases hres : SpcUtils.resultOf data n with
    | none => rfl
    | some r =>
      obtain ⟨c, hc, hlen, hr⟩ := SpcUtils.suResultOf_inv hres
      subst hr
      simp only [Option.map_some', Option.some.injEq]
      apply List.countP_congr
      intro y hy
      have h0 : (0 : ℚ) ≤ y := SpcUtils.suRanges_nonneg _ n y hy
      have hy0 : ¬ y < c.D3 * (calculateMean
          (SpcUtils.calculateSubgroupRanges (SpcUtils.extractMeasurements data) n)).getD 0 := by
        rw [controlChartConstants_D3 hc, zero_mul]
        exact not_lt.mpr h0
      simp [hy0]
      exact Iff.rfl
  · cases hres : Part000.resultOf data n with
    | none => rfl
    | some r =>
      obtain ⟨c, hc, hlen, hr⟩ := Part000.p0ResultOf_inv hres
      subst hr
      simp only [Option.map_some', Option.some.injEq]
      show c.D3 * _ = 0
      rw [controlChartConstants_D3 hc, zero_mul]
  · cases hres : Part000.resultOf data n with
    | none => rfl
    | some r =>
      obtain ⟨c, hc, hlen, hr⟩ := Part000.p0ResultOf_inv hres
      subst hr
      simp only [Option.map_some', Option.some.injEq]
      rw [List.all_eq_true]
      intro y hy
      have h0 : (0 : ℚ) ≤ y := Part000.p0Ranges_nonneg _ n y hy
      have hlcl : (Part000.buildResult data n c).rangeLcl = 0 := by
        show c.D3 * _ = 0
        rw [controlChartConstants_D3 hc, zero_mul]
      rw [hlcl]
      have hnl : ¬ y < 0 := not_lt.mpr h0
      simp [hnl]
  · cases hres : Part000.resultOf data n with
    | none => rfl
    | some r =>
      obtain ⟨c, hc, hlen, hr⟩ := Part000.p0ResultOf_inv hres
      subst hr
      simp only [Option.map_some', Option.some.injEq]
      apply List.countP_congr
      intro y hy
      have h0 : (0 : ℚ) ≤ y := Part000.p0Ranges_nonneg _ n y hy
      have hy0 : ¬ y < c.D3 * (calculateMean
          (Part000.p0SubgroupRanges (Part000.p0Measurements data) n)).getD 0 := by
        rw [controlChartConstants_D3 hc, zero_mul]
        exact not_lt.mpr h0
      simp [hy0]
      exact Iff.rfl

/-- C10, witness: the confirmed theorem at a concrete input (three finite
measurements, sample size 1), with the moving-range conclusions evaluated. -/
theorem claim_C10_witness :
    ((SpcUtils.resultOf
        [⟨JSVal.num 2, JSVal.num 0, JSVal.num 10⟩, ⟨JSVal.num 5, JSVal.num 0, JSVal.num 10⟩,
         ⟨JSVal.num 3, JSVal.num 0, JSVal.num 10⟩] 1).map (fun r => r.rangeLcl) =
      (SpcUtils.resultOf
        [⟨JSVal.num 2, JSVal.num 0, JSVal.num 10⟩, ⟨JSVal.num 5, JSVal.num 0, JSVal.num 10⟩,
         ⟨JSVal.num 3, JSVal.num 0, JSVal.num 10⟩] 1).map (fun _ => (0 : ℚ))) ∧
    ((Part000.resultOf
        [⟨JSVal.num 2, JSVal.num 0, JSVal.num 10⟩, ⟨JSVal.num 5, JSVal.num 0, JSVal.num 10⟩,
         ⟨JSVal.num 3, JSVal.num 0, JSVal.num 10⟩] 1).map (fun r => r.pointsOutsideRangeLimits) =
      (Part000.resultOf
        [⟨JSVal.num 2, JSVal.num 0, JSVal.num 10⟩, ⟨JSVal.num 5, JSVal.num 0, JSVal.num 10⟩,
         ⟨JSVal.num 3, JSVal.num 0, JSVal.num 10⟩] 1).map
        (fun r => r.rangeValues.countP (fun y => decide (r.rangeUcl < y)))) := by
  constructor
  · exact (claim_C10_confirmed
      [⟨JSVal.num 2, JSVal.num 0, JSVal.num 10⟩, ⟨JSVal.num 5, JSVal.num 0, JSVal.num 10⟩,
       ⟨JSVal.num 3, JSVal.num 0, JSVal.num 10⟩] 1 (by decide)).2.1
  · exact (claim_C10_confirmed
      [⟨JSVal.num 2, JSVal.num 0, JSVal.num 10⟩, ⟨JSVal.num 5, JSVal.num 0, JSVal.num 10⟩,
       ⟨JSVal.num 3, JSVal.num 0, JSVal.num 10⟩] 1 (by decide)).2.2.2.2.2.2

end ConcreteEvaluation
